import Mathlib

/-!
Verification of the LabBuilder network/topology model and address-allocation
engine against its specification.

The development shallowly embeds the Rust sources:
  * `src/lib/network.rs`  — `Network`, `Network::from_toml`, `Network::get_address_lease`
  * `src/lib/system.rs`   — `System`, `System::from_toml`, `System::configure_networking`
  * `src/lib/indentation_aware_string_builder.rs` — the output text builder
  * the Scenario aggregate (`Scenario::from_toml`, referenced by the tests in
    `system.rs` but whose definition is not among the sources; it is modelled
    from the spec where needed)

IPv4 addresses are embedded as `Nat` (the numeric value of the `u32`
underlying `Ipv4Addr`).  TOML values are embedded abstractly as `TomlVal`
(string / array / other), matching how the code only distinguishes
`as_str`, `as_array`, and presence of a key.  Interior mutability
(`Rc<RefCell<HashSet<Ipv4Addr>>>`) is embedded by explicit state passing: the
scenario's network list is the store, and an `Rc<Network>` held by a system is
identified by the name it was resolved from (resolution and leasing both pick
the first store entry with that name, exactly as `Iterator::find` does).
-/

/-- Numeric value of the dotted quad `a.b.c.d`. -/
def ipv4 (a b c d : Nat) : Nat :=
  ((a * 256 + b) * 256 + c) * 256 + d

/-- Embedding of `ipnet::Ipv4Net`: an address (`u32` as `Nat`) plus a CIDR
length out of `Ipv4Net { addr, prefix_len }`. -/
structure Ipv4Net where
  addr : Nat
  prefixLen : Nat
deriving DecidableEq, Repr

/-- Number of addresses spanned by the host part: `2 ^ (32 - prefix_len)`. -/
def Ipv4Net.hostSpan (n : Ipv4Net) : Nat :=
  2 ^ (32 - n.prefixLen)

/-- `Ipv4Net::network()`: the address with the host bits cleared.  ipnet
computes `addr & netmask`; for a mask consisting of the top `prefix_len` bits
this equals rounding down to a multiple of `2 ^ (32 - prefix_len)`. -/
def Ipv4Net.networkAddr (n : Ipv4Net) : Nat :=
  n.addr / n.hostSpan * n.hostSpan

/-- `Ipv4Net::broadcast()`: the address with the host bits set.  ipnet
computes `network | hostmask`; as the network address has zero host bits this
equals adding `2 ^ (32 - prefix_len) - 1`. -/
def Ipv4Net.broadcastAddr (n : Ipv4Net) : Nat :=
  n.networkAddr + (n.hostSpan - 1)

/-- `<Ipv4Net as Contains<&Ipv4Net>>::contains`: full containment,
`self.network() <= other.network() && other.broadcast() <= self.broadcast()`. -/
def Ipv4Net.containsNet (a b : Ipv4Net) : Prop :=
  a.networkAddr ≤ b.networkAddr ∧ b.broadcastAddr ≤ a.broadcastAddr

instance (a b : Ipv4Net) : Decidable (a.containsNet b) :=
  inferInstanceAs (Decidable (_ ∧ _))

/-- `<Ipv4Net as Contains<&Ipv4Addr>>::contains`:
`network() <= addr && addr <= broadcast()`. -/
def Ipv4Net.containsAddr (n : Ipv4Net) (a : Nat) : Prop :=
  n.networkAddr ≤ a ∧ a ≤ n.broadcastAddr

instance (n : Ipv4Net) (a : Nat) : Decidable (n.containsAddr a) :=
  inferInstanceAs (Decidable (_ ∧ _))

/-- `Ipv4Net::hosts()` materialised as a list: for prefixes below /31 the
range runs from `network() + 1` up to `broadcast() - 1` inclusive (the usable
hosts); for /31 and /32 ipnet includes the whole range. -/
def Ipv4Net.hostsList (n : Ipv4Net) : List Nat :=
  if n.prefixLen < 31 then
    List.range' (n.networkAddr + 1) (n.broadcastAddr - n.networkAddr - 1)
  else
    List.range' n.networkAddr (n.broadcastAddr + 1 - n.networkAddr)

/-- Split a character list at every occurrence of `c` (the pieces between the
separators, possibly empty), as `str::split` does for the CIDR syntax. -/
def splitOnChar (c : Char) : List Char → List (List Char)
  | [] => [[]]
  | x :: xs =>
    let r := splitOnChar c xs
    if x = c then [] :: r
    else
      match r with
      | [] => [[x]]
      | h :: t => (x :: h) :: t

/-- Parse a non-empty all-digit character list as a decimal number, as the
`FromStr` instances for the integer fields do. -/
def digitsToNat? (l : List Char) : Option Nat :=
  if !l.isEmpty && l.all (fun c => c.isDigit) then
    some (l.foldl (fun n c => n * 10 + (c.toNat - 48)) 0)
  else none

/-- `Ipv4Net::from_str`: `"a.b.c.d/p"` with each octet at most 255 and the
prefix length at most 32; anything else is a parse failure. -/
def Ipv4Net.fromStr (s : String) : Option Ipv4Net :=
  match splitOnChar '/' s.toList with
  | [addrPart, prePart] =>
    match digitsToNat? prePart with
    | none => none
    | some p =>
      if p ≤ 32 then
        match splitOnChar '.' addrPart with
        | [w, x, y, z] =>
          match digitsToNat? w, digitsToNat? x, digitsToNat? y, digitsToNat? z with
          | some a, some b, some c, some d =>
            if a ≤ 255 && b ≤ 255 && c ≤ 255 && d ≤ 255 then
              some ⟨ipv4 a b c d, p⟩
            else none
          | _, _, _, _ => none
        | _ => none
      else none
  | _ => none

/-- The three RFC 1918 ranges hard-coded in `Network::from_toml`. -/
def privateNets : List Ipv4Net :=
  [⟨ipv4 10 0 0 0, 8⟩, ⟨ipv4 172 16 0 0, 12⟩, ⟨ipv4 192 168 0 0, 16⟩]

/-- An element of a TOML array as far as the code observes one: the code only
ever calls `as_str` on such an element. -/
inductive TomlAtom where
  | str (s : String)
  | other
deriving DecidableEq

/-- A TOML value as far as the code observes one: `as_str`, `as_array`, or
some other shape. -/
inductive TomlVal where
  | str (s : String)
  | arr (l : List TomlAtom)
  | other
deriving DecidableEq

/-- `NetworkType` from `network.rs`. -/
inductive NetworkType where
  | Public
  | Internal
deriving DecidableEq, Repr

/-- The fields `Network::from_toml` reads from its TOML table. -/
structure NetworkToml where
  name : Option TomlVal
  ntype : Option TomlVal
  subnet : Option TomlVal
deriving DecidableEq

/-- `Network` from `network.rs`.  `available_hosts` is the materialised
`Ipv4AddrRange`; `allocated_hosts` is the `RefCell<HashSet<Ipv4Addr>>`,
embedded as a list used only through membership. -/
structure Network where
  name : String
  network_type : NetworkType
  subnet : Option Ipv4Net
  available_hosts : Option (List Nat)
  allocated_hosts : Option (List Nat)
deriving DecidableEq

def tooSmallMsg (nm : String) : String :=
  "Network \"" ++ nm ++ "\" configured with a subnet smaller than /30. Networks smaller than /30 can't have multiple hosts."

def rfcMsg (nm : String) : String :=
  "Subnet configured for network \"" ++ nm ++ "\" is not RFC 1918 compliant. Subnets must be in valid allocation for private networks."

def publicSubnetMsg (nm : String) : String :=
  "Network \"" ++ nm ++ "\" is configured as a Public network and has a subnet configured. Public networks can't have configured subnets."

/-- The successfully validated Internal network, as built at the end of
`Network::from_toml`. -/
def mkInternalNetwork (nm : String) (sn : Ipv4Net) : Network :=
  { name := nm
    network_type := NetworkType.Internal
    subnet := some sn
    available_hosts := some sn.hostsList
    allocated_hosts := some [] }

/-- `Network::from_toml` (network.rs lines 25-124), step for step: read the
name, the type, then for Internal networks parse and validate the subnet
(CIDR parse, then the `0...30` prefix-length check, then the RFC 1918
containment check), and for Public networks reject the presence of a subnet
key; finally materialise `hosts()` and an empty lease set for Internal
networks only. -/
def Network.from_toml (t : NetworkToml) : Except String Network :=
  match t.name with
  | none => Except.error "Could not read network name"
  | some (TomlVal.str network_name) =>
    match t.ntype with
    | none => Except.error ("Could not read network type for network: " ++ network_name)
    | some (TomlVal.str network_type_unparsed) =>
      match (if network_type_unparsed = "Public" then Except.ok NetworkType.Public
             else if network_type_unparsed = "Internal" then Except.ok NetworkType.Internal
             else Except.error ("Could not parse network type as a valid type for network: "
               ++ network_name ++ ". Valid types are: Public, Internal") : Except String NetworkType) with
      | Except.error e => Except.error e
      | Except.ok NetworkType.Public =>
        match t.subnet with
        | none =>
          Except.ok
            { name := network_name
              network_type := NetworkType.Public
              subnet := none
              available_hosts := none
              allocated_hosts := none }
        | some _ => Except.error (publicSubnetMsg network_name)
      | Except.ok NetworkType.Internal =>
        match t.subnet with
        | none => Except.error ("Could not read subnet for network: " ++ network_name)
        | some (TomlVal.str s) =>
          match Ipv4Net.fromStr s with
          | none => Except.error ("Could not parse subnet as a valid CIDR range for network: " ++ network_name)
          | some sn =>
            if sn.prefixLen ≤ 30 then
              if privateNets.any (fun p => decide (p.containsNet sn)) then
                Except.ok (mkInternalNetwork network_name sn)
              else Except.error (rfcMsg network_name)
            else Except.error (tooSmallMsg network_name)
        | some _ => Except.error ("Could not read subnet as string for network: " ++ network_name)
    | some _ => Except.error ("Could not read network type as a string for network: " ++ network_name)
  | some _ => Except.error "Could not read network name as a string"

/-- `Network::get_address_lease` (network.rs lines 126-141): with the
allocated set present, `available_hosts?.skip_while(contains).next()`; on a
hit the address is inserted into the allocated set before it is returned.
The pair carries the (possibly updated) network, standing for the `RefCell`
mutation. -/
def Network.get_address_lease (n : Network) : Option Nat × Network :=
  match n.allocated_hosts with
  | some alloc =>
    match n.available_hosts with
    | some hosts =>
      match (hosts.dropWhile (fun a => alloc.contains a)).head? with
      | some addr => (some addr, { n with allocated_hosts := some (addr :: alloc) })
      | none => (none, n)
    | none => (none, n)
  | none => (none, n)

/-- A sequence of `k` successive `get_address_lease` calls on one network,
collecting each call's result in order. -/
def leaseRun : Network → Nat → List (Option Nat) × Network
  | net, 0 => ([], net)
  | net, k + 1 =>
    let step := net.get_address_lease
    let rest := leaseRun step.snd k
    (step.fst :: rest.fst, rest.snd)

/-- `System` from `system.rs`.  `networks` holds the system's resolved
network references: in the source these are `Rc<Network>` clones of entries
of the scenario's network list; here a reference is identified by the name it
was resolved from (both `find` during resolution and every later access pick
the first store entry carrying that name, so the name is a faithful proxy for
the shared pointer).  `leased_network_addresses` is the
`HashMap<String, Vec<Ipv4Addr>>`, embedded as an association list (the code
only accesses it per key). -/
structure System where
  name : String
  networks : List String
  network_names : List String
  base_box : String
  leased_network_addresses : List (String × List Nat)
deriving DecidableEq

/-- The fields `System::from_toml` reads from its TOML table. -/
structure SystemToml where
  name : Option TomlVal
  networks : Option TomlVal
  base_box : Option TomlVal
deriving DecidableEq

/-- The `map`/`collect` over the members of the `networks` array in
`System::from_toml`: each member must be a string, the first non-string
aborts with the shown message. -/
def readNetworkNames (sysName : String) : List TomlAtom → Except String (List String)
  | [] => Except.ok []
  | TomlAtom.str s :: rest =>
    match readNetworkNames sysName rest with
    | Except.error e => Except.error e
    | Except.ok l => Except.ok (s :: l)
  | TomlAtom.other :: _ => Except.error ("Could not parse networks for system: " ++ sysName)

/-- `System::from_toml` (system.rs lines 18-71): read the name, the
`networks` array of names, and `base_box`; the system starts with no resolved
networks and no leases. -/
def System.from_toml (t : SystemToml) : Except String System :=
  match t.name with
  | none => Except.error "Could not read name of system"
  | some (TomlVal.str sysName) =>
    match t.networks with
    | none => Except.error ("Could not read networks for system: " ++ sysName)
    | some (TomlVal.arr vals) =>
      match readNetworkNames sysName vals with
      | Except.error e => Except.error e
      | Except.ok names =>
        match t.base_box with
        | none => Except.error ("Could not read base_box for system: " ++ sysName)
        | some (TomlVal.str bb) =>
          Except.ok
            { name := sysName
              networks := []
              network_names := names
              base_box := bb
              leased_network_addresses := [] }
        | some _ => Except.error ("Could not read base_box as a string for system: " ++ sysName)
    | some _ => Except.error ("Could not read networks for system: " ++ sysName)
  | some _ => Except.error "Could not read name of system as a string"

def unresolvedMsg (sysName nm : String) : String :=
  "System \"" ++ sysName ++ "\" is configured to use network \"" ++ nm ++ "\" but no network with that name could be found"

def capacityMsg (nm : String) : String :=
  "Subnet for network \"" ++ nm ++ "\" does not have enough available addresses for all systems configured to use it."

/-- The resolution `map`/`collect` of `System::configure_networking`
(system.rs lines 77-88): each declared name is looked up with
`scenario_networks.iter().find(...)`, and the first unresolved name aborts
the whole resolution with the shown error. -/
def resolveNetworks (sysName : String) : List String → List Network → Except String (List Network)
  | [], _ => Except.ok []
  | nm :: rest, store =>
    match store.find? (fun net => net.name == nm) with
    | none => Except.error (unresolvedMsg sysName nm)
    | some net =>
      match resolveNetworks sysName rest store with
      | Except.error e => Except.error e
      | Except.ok others => Except.ok (net :: others)

/-- Dereference-and-lease on the shared store: `net.get_address_lease()` on
the `Rc` resolved for name `nm` acts on the first store entry with that name;
the store comes back with that entry's lease set updated. -/
def leaseByName : List Network → String → Option Nat × List Network
  | [], _ => (none, [])
  | net :: rest, nm =>
    if net.name = nm then
      let step := net.get_address_lease
      (step.fst, step.snd :: rest)
    else
      let tail := leaseByName rest nm
      (tail.fst, net :: tail.snd)

/-- The lease set of the network a name dereferences to (empty when the name
is unresolved or the network is Public). -/
def allocSet : List Network → String → List Nat
  | [], _ => []
  | net :: rest, nm =>
    if net.name = nm then net.allocated_hosts.getD []
    else allocSet rest nm

/-- The `available_hosts` of the network a name dereferences to (the first
store entry carrying that name). -/
def availOf : List Network → String → Option (List Nat)
  | [], _ => none
  | net :: rest, nm =>
    if net.name = nm then net.available_hosts
    else availOf rest nm

/-- The `allocated_hosts` of the network a name dereferences to. -/
def allocOf : List Network → String → Option (List Nat)
  | [], _ => none
  | net :: rest, nm =>
    if net.name = nm then net.allocated_hosts
    else allocOf rest nm

/-- The `entry(...).and_modify(push).or_insert(vec![addr])` update of
`leased_network_addresses`. -/
def updateLeases : List (String × List Nat) → String → Nat → List (String × List Nat)
  | [], nm, addr => [(nm, [addr])]
  | (k, v) :: rest, nm, addr =>
    if k = nm then (k, v ++ [addr]) :: rest
    else (k, v) :: updateLeases rest nm addr

/-- Lookup in the embedded `HashMap` (the empty list when the key is
absent). -/
def lookupLeases : List (String × List Nat) → String → List Nat
  | [], _ => []
  | (k, v) :: rest, nm => if k = nm then v else lookupLeases rest nm

/-- The `for net in internal_nets` loop of `System::configure_networking`
(system.rs lines 99-111): lease on each Internal reference in declared order,
recording the address in the system's per-network list; a failed lease aborts
the loop with the capacity error (mutations already made stay in place, as
they do through `&mut self` and the `RefCell`). -/
def wireLoop : List String → System → List Network → Option String × System × List Network
  | [], sys, store => (none, sys, store)
  | nm :: rest, sys, store =>
    match leaseByName store nm with
    | (some addr, store') =>
      wireLoop rest
        { sys with leased_network_addresses := updateLeases sys.leased_network_addresses nm addr }
        store'
    | (none, store') => (some (capacityMsg nm), sys, store')

/-- `System::configure_networking` (system.rs lines 73-114): resolve every
declared name against the scenario's networks (aborting before any mutation
on the first unresolved name), append the resolved references to
`self.networks`, then lease one address per Internal reference in declared
order.  The triple carries the error (if any), the mutated system, and the
mutated store. -/
def System.configure_networking (sys : System) (store : List Network) :
    Option String × System × List Network :=
  match resolveNetworks sys.name sys.network_names store with
  | Except.error e => (some e, sys, store)
  | Except.ok resolved =>
    let sys1 := { sys with networks := sys.networks ++ resolved.map (fun net => net.name) }
    let internal_names :=
      (resolved.filter (fun net => net.network_type == NetworkType.Internal)).map
        (fun net => net.name)
    wireLoop internal_names sys1 store

/-- `Scenario` as used by the tests in `system.rs`: a name, the systems and
the networks. -/
structure Scenario where
  name : String
  systems : List System
  networks : List Network
deriving DecidableEq

/-- The raw scenario table: the scenario name, the `[[systems]]` tables and
the `[[networks]]` tables in declared order. -/
structure ScenarioToml where
  name : String
  systems : List SystemToml
  networks : List NetworkToml
deriving DecidableEq

/-- Build every network in input order, the first failure aborting. -/
def buildNetworks : List NetworkToml → Except String (List Network)
  | [] => Except.ok []
  | t :: rest =>
    match Network.from_toml t with
    | Except.error e => Except.error e
    | Except.ok net =>
      match buildNetworks rest with
      | Except.error e => Except.error e
      | Except.ok nets => Except.ok (net :: nets)

/-- Build every system in input order, the first failure aborting. -/
def buildSystems : List SystemToml → Except String (List System)
  | [] => Except.ok []
  | t :: rest =>
    match System.from_toml t with
    | Except.error e => Except.error e
    | Except.ok sys =>
      match buildSystems rest with
      | Except.error e => Except.error e
      | Except.ok syss => Except.ok (sys :: syss)

/-- The first name, in insertion order, that occurs more than once. -/
def firstDuplicate (names : List String) : Option String :=
  names.find? (fun nm => 1 < names.count nm)

def duplicateNetworkMsg (nm : String) : String :=
  "Network name \"" ++ nm ++ "\" is not unique. Network names must be unique within a scenario."

def duplicateSystemMsg (nm : String) : String :=
  "System name \"" ++ nm ++ "\" is not unique. System names must be unique within a scenario."

/-- Modelled from the spec: `Scenario::from_toml`, the scenario aggregate
constructor invoked by the tests in `system.rs` but missing from the source
files (`scenario.rs` holds an older `parse_scenario` snapshot that neither
defines `from_toml` nor matches the `System`/`Network` types of
`system.rs`/`network.rs`).  Following spec section 4.4: build all Networks
first in input order, then check network-name uniqueness — the first name
with more than one occurrence fails, naming that network — then build all
Systems without wiring them, then check system-name uniqueness the same
way. -/
def Scenario.from_toml (st : ScenarioToml) : Except String Scenario :=
  match buildNetworks st.networks with
  | Except.error e => Except.error e
  | Except.ok networks =>
    match firstDuplicate (networks.map (fun net => net.name)) with
    | some nm => Except.error (duplicateNetworkMsg nm)
    | none =>
      match buildSystems st.systems with
      | Except.error e => Except.error e
      | Except.ok systems =>
        match firstDuplicate (systems.map (fun sys => sys.name)) with
        | some nm => Except.error (duplicateSystemMsg nm)
        | none => Except.ok { name := st.name, systems := systems, networks := networks }

/-- `IndentationType` from `indentation_aware_string_builder.rs`. -/
inductive IndentationType where
  | Tabs
  | Spaces
deriving DecidableEq

/-- `IndentationAwareStringBuilder` from
`indentation_aware_string_builder.rs`. -/
structure IndentationAwareStringBuilder where
  indentation_type : IndentationType
  tab_size : Option Nat
  current_indentation_level : Nat
  buffer : List String
deriving DecidableEq

/-- `IndentationAwareStringBuilder::new`. -/
def IndentationAwareStringBuilder.new : IndentationAwareStringBuilder :=
  { indentation_type := IndentationType.Spaces
    tab_size := some 4
    current_indentation_level := 0
    buffer := [] }

/-- `with_indentation_type`: switching the style resets `tab_size`. -/
def IndentationAwareStringBuilder.with_indentation_type
    (b : IndentationAwareStringBuilder) (it : IndentationType) :
    IndentationAwareStringBuilder :=
  { b with
    indentation_type := it
    tab_size := match it with
      | IndentationType.Spaces => some 4
      | IndentationType.Tabs => none }

/-- `with_tab_size`. -/
def IndentationAwareStringBuilder.with_tab_size
    (b : IndentationAwareStringBuilder) (n : Nat) : IndentationAwareStringBuilder :=
  { b with tab_size := some n }

/-- `add`: prepend the current indentation (level times the tab size spaces,
or level tabs) to the new line and push it onto the buffer.  The
`cycle().take(...)` over the one-character indent string is the replicated
character. -/
def IndentationAwareStringBuilder.add
    (b : IndentationAwareStringBuilder) (new_line : String) :
    IndentationAwareStringBuilder :=
  let current_indentation :=
    match b.indentation_type with
    | IndentationType.Spaces =>
      String.mk (List.replicate (b.current_indentation_level * b.tab_size.getD 4) ' ')
    | IndentationType.Tabs =>
      String.mk (List.replicate b.current_indentation_level '\t')
  { b with buffer := b.buffer ++ [current_indentation ++ new_line] }

/-- `increase_indentation`: `current_indentation_level += 1`. -/
def IndentationAwareStringBuilder.increase_indentation
    (b : IndentationAwareStringBuilder) : IndentationAwareStringBuilder :=
  { b with current_indentation_level := b.current_indentation_level + 1 }

/-- `decrease_indentation`: `current_indentation_level -= 1` on a `usize`.
The subtraction underflows when the level is 0 (a panic in a debug build, a
wrap-around in release); `none` embeds that underflow, so the operation is
partial at level 0 rather than a clamping no-op. -/
def IndentationAwareStringBuilder.decrease_indentation
    (b : IndentationAwareStringBuilder) : Option IndentationAwareStringBuilder :=
  if b.current_indentation_level = 0 then none
  else some { b with current_indentation_level := b.current_indentation_level - 1 }

/-- `build_string`: `buffer.join("\n")`. -/
def IndentationAwareStringBuilder.build_string
    (b : IndentationAwareStringBuilder) : String :=
  String.intercalate "\n" b.buffer

/-- A client call against the builder: the three mutating operations. -/
inductive BuilderOp where
  | inc
  | dec
  | add (line : String)
deriving DecidableEq

/-- Run a sequence of builder calls; `none` as soon as a
`decrease_indentation` underflows. -/
def runOps : List BuilderOp → IndentationAwareStringBuilder →
    Option IndentationAwareStringBuilder
  | [], b => some b
  | BuilderOp.inc :: rest, b => runOps rest b.increase_indentation
  | BuilderOp.dec :: rest, b =>
    match b.decrease_indentation with
    | none => none
    | some b' => runOps rest b'
  | BuilderOp.add s :: rest, b => runOps rest (b.add s)

/-- Number of `increase_indentation` calls in a call sequence. -/
def countIncs (ops : List BuilderOp) : Nat :=
  ops.countP (fun op => match op with | BuilderOp.inc => true | _ => false)

/-- Number of `decrease_indentation` calls in a call sequence. -/
def countDecs (ops : List BuilderOp) : Nat :=
  ops.countP (fun op => match op with | BuilderOp.dec => true | _ => false)

/-- Every `decrease_indentation` call is matched by a prior
`increase_indentation`: in every prefix the decrements do not outnumber the
increments. -/
def balancedOps (ops : List BuilderOp) : Prop :=
  ∀ p q : List BuilderOp, ops = p ++ q → countDecs p ≤ countIncs p

/-- Dropping the longest run satisfying `p` and looking at the next element
is exactly searching for the first element falsifying `p`. -/
theorem head?_dropWhile_eq_find?_not {α : Type} (p : α → Bool) (l : List α) :
    (l.dropWhile p).head? = l.find? (fun a => !p a) := by
  induction l with
  | nil => rfl
  | cons x xs ih =>
    cases hp : p x
    · simp [List.dropWhile_cons, List.find?_cons, hp]
    · simp [List.dropWhile_cons, List.find?_cons, hp, ih]

/-- `find?` only looks at the predicate's values on the list's elements. -/
theorem find?_congr_on {α : Type} {p q : α → Bool} (l : List α)
    (h : ∀ a ∈ l, p a = q a) : l.find? p = l.find? q := by
  induction l with
  | nil => rfl
  | cons x xs ih =>
    have hx := h x (by simp)
    rw [List.find?_cons, List.find?_cons, hx]
    cases q x
    · exact ih fun a ha => h a (by simp [ha])
    · rfl

/-- On a duplicate-free list, when the claimed set holds exactly the first
`m` elements, the first unclaimed element is the `m`-th one. -/
theorem find?_not_mem_take (l : List Nat) (hnd : l.Nodup) :
    ∀ (m : Nat) (alloc : List Nat), (∀ a, a ∈ alloc ↔ a ∈ l.take m) →
      l.find? (fun a => !(decide (a ∈ alloc))) = l[m]? := by
  induction l with
  | nil => intro m alloc _; simp
  | cons x xs ih =>
    intro m alloc hmem
    cases m with
    | zero =>
      have hx : x ∉ alloc := fun hc => by simpa using (hmem x).mp hc
      simp [List.find?_cons, hx]
    | succ m =>
      have hx : x ∈ alloc := (hmem x).mpr (by simp [List.take_succ_cons])
      rw [List.find?_cons]
      have hdx : (!(decide (x ∈ alloc))) = false := by simp [hx]
      rw [hdx]
      have hxs : xs.find? (fun a => !(decide (a ∈ alloc)))
          = xs.find? (fun a => !(decide (a ∈ xs.take m))) := by
        apply find?_congr_on
        intro a ha
        have hax : a ≠ x := fun he => (List.nodup_cons.mp hnd).1 (he ▸ ha)
        have hiff : a ∈ alloc ↔ a ∈ xs.take m := by
          rw [hmem a, List.take_succ_cons]
          simp [hax]
        simp only [hiff]
      rw [hxs, ih (List.nodup_cons.mp hnd).2 m (xs.take m) (fun a => Iff.rfl)]
      simp

/-- An element's presence at an index is equivalent to the index being in
range. -/
theorem getElem?_isSome_iff (l : List Nat) (n : Nat) :
    l[n]?.isSome ↔ n < l.length := by
  constructor
  · intro h
    by_contra hn
    rw [List.getElem?_eq_none (by omega)] at h
    simp at h
  · intro h
    rw [List.getElem?_eq_getElem h]
    rfl

/-- A prefix-count invariant runs `runOps` to completion: the decrements
in every prefix of the remaining calls stay within the increments plus the
starting level. -/
theorem runOps_isSome_of_prefix_bound (ops : List BuilderOp) :
    ∀ b : IndentationAwareStringBuilder,
      (∀ p q, ops = p ++ q → countDecs p ≤ countIncs p + b.current_indentation_level) →
      (runOps ops b).isSome := by
  induction ops with
  | nil => intro b _; simp [runOps]
  | cons op rest ih =>
    intro b h
    cases op with
    | inc =>
      apply ih
      intro p q hpq
      have hh := h (BuilderOp.inc :: p) q (by rw [hpq, List.cons_append])
      simp [countDecs, countIncs, List.countP_cons] at hh ⊢
      simp only [IndentationAwareStringBuilder.increase_indentation]
      omega
    | dec =>
      have h1 := h [BuilderOp.dec] rest rfl
      simp [countDecs, countIncs, List.countP_cons, List.countP_nil] at h1
      have hpos : 0 < b.current_indentation_level := by omega
      show (runOps (BuilderOp.dec :: rest) b).isSome
      rw [runOps]
      simp only [IndentationAwareStringBuilder.decrease_indentation, if_neg (by omega : ¬ b.current_indentation_level = 0)]
      apply ih
      intro p q hpq
      have hh := h (BuilderOp.dec :: p) q (by rw [hpq, List.cons_append])
      simp [countDecs, countIncs, List.countP_cons] at hh ⊢
      omega
    | add s =>
      apply ih
      intro p q hpq
      have hh := h (BuilderOp.add s :: p) q (by rw [hpq, List.cons_append])
      simp [countDecs, countIncs, List.countP_cons] at hh ⊢
      simp only [IndentationAwareStringBuilder.add]
      omega

/-- Executable balance check used to discharge `balancedOps` on concrete call
sequences: `d` is the spare indentation collected so far. -/
def balOk : List BuilderOp → Nat → Bool
  | [], _ => true
  | BuilderOp.inc :: rest, d => balOk rest (d + 1)
  | BuilderOp.dec :: rest, d =>
    match d with
    | 0 => false
    | d' + 1 => balOk rest d'
  | BuilderOp.add _ :: rest, d => balOk rest d

theorem balOk_sound : ∀ (ops : List BuilderOp) (d : Nat), balOk ops d = true →
    ∀ p q, ops = p ++ q → countDecs p ≤ countIncs p + d := by
  intro ops
  induction ops with
  | nil =>
    intro d _ p q hpq
    have hp : p = [] := (List.append_eq_nil.mp hpq.symm).1
    subst hp
    simp [countDecs, countIncs]
  | cons op rest ih =>
    intro d hbal p q hpq
    cases p with
    | nil => simp [countDecs, countIncs]
    | cons a p' =>
      rw [List.cons_append] at hpq
      have ha : op = a := (List.cons.injEq .. |>.mp hpq).1
      have hrest : rest = p' ++ q := (List.cons.injEq .. |>.mp hpq).2
      subst ha
      cases op with
      | inc =>
        have := ih (d + 1) (by simpa [balOk] using hbal) p' q hrest
        simp [countDecs, countIncs, List.countP_cons] at *
        omega
      | dec =>
        cases d with
        | zero => simp [balOk] at hbal
        | succ d' =>
          have := ih d' (by simpa [balOk] using hbal) p' q hrest
          simp [countDecs, countIncs, List.countP_cons] at *
          omega
      | add s =>
        have := ih d (by simpa [balOk] using hbal) p' q hrest
        simp [countDecs, countIncs, List.countP_cons] at *
        omega

/-- A concrete sequence passing the executable check is balanced. -/
theorem balancedOps_of_balOk (ops : List BuilderOp) (h : balOk ops 0 = true) :
    balancedOps ops := by
  intro p q hpq
  have := balOk_sound ops 0 h p q hpq
  omega

/-- C10: calling `decrease_indentation` at indentation level 0 is not a safe
no-op — the `usize` decrement underflows (embedded as `none`) instead of
clamping at level 0; and when every `decrease_indentation` call is preceded
by a matching `increase_indentation` (no prefix of the call sequence has
more decrements than increments), every call succeeds, the level being a
natural number that never drops below 0. -/
theorem decrease_indentation_underflow :
    (∀ b : IndentationAwareStringBuilder, b.current_indentation_level = 0 →
      b.decrease_indentation = none) ∧
    IndentationAwareStringBuilder.new.decrease_indentation = none ∧
    (∀ ops : List BuilderOp, balancedOps ops →
      (runOps ops IndentationAwareStringBuilder.new).isSome) := by
  refine ⟨?_, ?_, ?_⟩
  · intro b hb
    simp [IndentationAwareStringBuilder.decrease_indentation, hb]
  · rfl
  · intro ops hbal
    apply runOps_isSome_of_prefix_bound
    intro p q hpq
    have := hbal p q hpq
    simp only [IndentationAwareStringBuilder.new]
    omega

/-- C10 witness: the underflow at level 0 on the fresh builder, and a
successful balanced run. -/
theorem decrease_indentation_underflow_witness :
    IndentationAwareStringBuilder.new.decrease_indentation = none ∧
    (runOps [BuilderOp.inc, BuilderOp.add "line", BuilderOp.dec]
      IndentationAwareStringBuilder.new).isSome :=
  ⟨decrease_indentation_underflow.2.1,
    decrease_indentation_underflow.2.2
      [BuilderOp.inc, BuilderOp.add "line", BuilderOp.dec]
      (balancedOps_of_balOk _ (by decide))⟩

/-- What one `get_address_lease` call does when both option fields are
populated: it returns the first available host outside the lease set and, on
a hit, inserts it into the lease set. -/
theorem get_address_lease_eq_find (net : Network) (hosts alloc : List Nat)
    (hav : net.available_hosts = some hosts) (hal : net.allocated_hosts = some alloc) :
    net.get_address_lease =
      match hosts.find? (fun a => !(decide (a ∈ alloc))) with
      | some addr => (some addr, { net with allocated_hosts := some (addr :: alloc) })
      | none => (none, net) := by
  obtain ⟨n1, n2, n3, n4, n5⟩ := net
  simp only at hav hal
  subst hav
  subst hal
  have hdw : (hosts.dropWhile (fun a => decide (a ∈ alloc))).head?
      = hosts.find? (fun a => !(decide (a ∈ alloc))) :=
    head?_dropWhile_eq_find?_not _ _
  cases hf : hosts.find? (fun a => !(decide (a ∈ alloc))) with
  | some addr => simp [Network.get_address_lease, hdw, hf]
  | none => simp [Network.get_address_lease, hdw, hf]

/-- An Internal network built by `Network::from_toml` is exactly the
validated shape: some subnet of prefix length at most 30, its usable hosts
materialised, and an empty lease set. -/
theorem from_toml_internal_shape (t : NetworkToml) (net : Network)
    (hok : Network.from_toml t = Except.ok net)
    (hint : net.network_type = NetworkType.Internal) :
    ∃ sn : Ipv4Net, sn.prefixLen ≤ 30 ∧ net = mkInternalNetwork net.name sn := by
  rcases t with ⟨tn, tt, ts⟩
  rcases tn with _ | v
  · exact absurd hok (by simp [Network.from_toml])
  rcases v with nm | al | _
  · rcases tt with _ | w
    · exact absurd hok (by simp [Network.from_toml])
    rcases w with ntu | wl | _
    · by_cases hP : ntu = "Public"
      · rcases ts with _ | sv
        · simp only [Network.from_toml, hP, if_true] at hok
          rw [← (Except.ok.injEq ..).mp hok] at hint
          simp at hint
        · exact absurd hok (by simp [Network.from_toml, hP])
      · by_cases hI : ntu = "Internal"
        · rcases ts with _ | sv
          · exact absurd hok (by simp [Network.from_toml, hP, hI])
          rcases sv with s | sl | _
          · cases hparse : Ipv4Net.fromStr s with
            | none => exact absurd hok (by simp [Network.from_toml, hP, hI, hparse])
            | some sn =>
              by_cases hlen : sn.prefixLen ≤ 30
              · by_cases hpriv : privateNets.any (fun p => decide (p.containsNet sn)) = true
                · simp only [Network.from_toml, hP, hI, hparse, hlen, hpriv, if_true,
                    if_false] at hok
                  have hnet : net = mkInternalNetwork nm sn := ((Except.ok.injEq ..).mp hok).symm
                  refine ⟨sn, hlen, ?_⟩
                  rw [hnet]
                  rfl
                · exact absurd hok (by simp [Network.from_toml, hP, hI, hparse, hlen, hpriv])
              · exact absurd hok (by simp [Network.from_toml, hP, hI, hparse, hlen])
          · exact absurd hok (by simp [Network.from_toml, hP, hI])
          · exact absurd hok (by simp [Network.from_toml, hP, hI])
        · exact absurd hok (by simp [Network.from_toml, hP, hI])
    · exact absurd hok (by simp [Network.from_toml])
    · exact absurd hok (by simp [Network.from_toml])
  · exact absurd hok (by simp [Network.from_toml])
  · exact absurd hok (by simp [Network.from_toml])

/-- The usable-host list of any subnet is duplicate-free. -/
theorem hostsList_nodup (sn : Ipv4Net) : sn.hostsList.Nodup := by
  unfold Ipv4Net.hostsList
  split
  · exact List.nodup_range' _ _ 1 (by decide)
  · exact List.nodup_range' _ _ 1 (by decide)

/-- Characterisation of a run of `k` successive lease calls starting from a
state whose lease set holds exactly the first `m` usable hosts: call `i`
returns host `m + i` when it exists and nothing otherwise, and afterwards the
lease set holds exactly the first `m + k` hosts. -/
theorem leaseRun_spec (hosts : List Nat) (hnd : hosts.Nodup) :
    ∀ (k m : Nat) (net : Network) (alloc : List Nat),
      net.available_hosts = some hosts →
      net.allocated_hosts = some alloc →
      (∀ a, a ∈ alloc ↔ a ∈ hosts.take m) →
      (leaseRun net k).fst = (List.range k).map (fun i => hosts[m + i]?) ∧
      ∃ alloc2 : List Nat,
        (leaseRun net k).snd = { net with allocated_hosts := some alloc2 } ∧
        (∀ a, a ∈ alloc2 ↔ a ∈ hosts.take (m + k)) := by
  intro k
  induction k with
  | zero =>
    intro m net alloc hav hal hmem
    refine ⟨by simp [leaseRun], alloc, ?_, by simpa using hmem⟩
    obtain ⟨n1, n2, n3, n4, n5⟩ := net
    simp only at hal
    subst hal
    simp [leaseRun]
  | succ k ih =>
    intro m net alloc hav hal hmem
    have hg := get_address_lease_eq_find net hosts alloc hav hal
    rw [find?_not_mem_take hosts hnd m alloc hmem] at hg
    cases hm : hosts[m]? with
    | some addr =>
      rw [hm] at hg
      have hg1 : net.get_address_lease
          = (some addr, { net with allocated_hosts := some (addr :: alloc) }) := hg
      have hlt : m < hosts.length := by
        by_contra hh
        rw [List.getElem?_eq_none (by omega)] at hm
        cases hm
      have hmem2 : ∀ a, a ∈ addr :: alloc ↔ a ∈ hosts.take (m + 1) := by
        intro a
        rw [List.take_succ, hm]
        simp only [List.mem_cons, List.mem_append, Option.toList_some, List.mem_singleton,
          hmem a]
        tauto
      obtain ⟨hfst, alloc2, hsnd, hmem3⟩ :=
        ih (m + 1) { net with allocated_hosts := some (addr :: alloc) } (addr :: alloc)
          hav rfl hmem2
      constructor
      · show (leaseRun net (k + 1)).fst = _
        simp only [leaseRun, hg1]
        rw [hfst, List.range_succ_eq_map, List.map_cons, List.map_map]
        have hidx : ((fun i => hosts[m + i]?) ∘ Nat.succ) = (fun i => hosts[m + 1 + i]?) := by
          funext i
          show hosts[m + (i + 1)]? = hosts[m + 1 + i]?
          congr 1
          omega
        rw [hidx]
        simp [hm]
      · refine ⟨alloc2, ?_, ?_⟩
        · show (leaseRun net (k + 1)).snd = _
          simp only [leaseRun, hg1]
          exact hsnd
        · intro a
          rw [hmem3 a, Nat.add_assoc, Nat.add_comm 1 k]
    | none =>
      rw [hm] at hg
      have hg1 : net.get_address_lease = (none, net) := hg
      have hge : hosts.length ≤ m := by
        by_contra hh
        rw [List.getElem?_eq_getElem (by omega)] at hm
        cases hm
      have hmem2 : ∀ a, a ∈ alloc ↔ a ∈ hosts.take (m + 1) := by
        intro a
        rw [List.take_of_length_le (by omega), hmem a, List.take_of_length_le hge]
      obtain ⟨hfst, alloc2, hsnd, hmem3⟩ := ih (m + 1) net alloc hav hal hmem2
      constructor
      · show (leaseRun net (k + 1)).fst = _
        simp only [leaseRun, hg1]
        rw [hfst, List.range_succ_eq_map, List.map_cons, List.map_map]
        have hidx : ((fun i => hosts[m + i]?) ∘ Nat.succ) = (fun i => hosts[m + 1 + i]?) := by
          funext i
          show hosts[m + (i + 1)]? = hosts[m + 1 + i]?
          congr 1
          omega
        rw [hidx]
        simp [hm]
      · refine ⟨alloc2, ?_, ?_⟩
        · show (leaseRun net (k + 1)).snd = _
          simp only [leaseRun, hg1]
          exact hsnd
        · intro a
          rw [hmem3 a, Nat.add_assoc, Nat.add_comm 1 k]

/-- Helper for reading one entry of a lease-run result list: entry `i` of a
run from the fresh state is exactly `hosts[i]?`. -/
theorem leaseRun_entry (hosts : List Nat) (hnd : hosts.Nodup) (net : Network)
    (hav : net.available_hosts = some hosts) (hal : net.allocated_hosts = some [])
    (k i : Nat) (r : Option Nat) (hi : ((leaseRun net k).fst)[i]? = some r) :
    i < k ∧ r = hosts[i]? := by
  have hm0 : ∀ a, a ∈ ([] : List Nat) ↔ a ∈ hosts.take 0 := by simp
  obtain ⟨hfst, -⟩ := leaseRun_spec hosts hnd k 0 net [] hav hal hm0
  rw [hfst, List.getElem?_map] at hi
  obtain ⟨v, hv, hfv⟩ := Option.map_eq_some'.mp hi
  have hik : i < k := by
    have hsome : ((List.range k)[i]?).isSome := by rw [hv]; rfl
    have h2 := (getElem?_isSome_iff (List.range k) i).mp hsome
    rwa [List.length_range] at h2
  rw [List.getElem?_range hik] at hv
  injection hv with hvi
  subst hvi
  rw [Nat.zero_add] at hfv
  exact ⟨hik, hfv.symm⟩

/-- C1: on an Internal network built by `Network::from_toml`, a sequence of
`get_address_lease` calls never returns the same address twice, a call
succeeds exactly while usable host addresses remain unclaimed (call `i`
succeeds iff `i < N` for a pool of `N` usable addresses), the `(N+1)`-th call
returns no address, and wiring a system against the exhausted network fails
with the capacity-exhaustion error of `System::configure_networking`. -/
theorem lease_requests_distinct_and_capacity_bounded
    (t : NetworkToml) (net : Network)
    (hok : Network.from_toml t = Except.ok net)
    (hint : net.network_type = NetworkType.Internal)
    (hosts : List Nat) (hav : net.available_hosts = some hosts)
    (k : Nat) :
    (∀ (i j a b : Nat), i ≠ j → ((leaseRun net k).fst)[i]? = some (some a) →
        ((leaseRun net k).fst)[j]? = some (some b) → a ≠ b) ∧
    (∀ (i : Nat) (r : Option Nat), ((leaseRun net k).fst)[i]? = some r →
        (r.isSome ↔ i < hosts.length)) ∧
    (hosts.length < k → ((leaseRun net k).fst)[hosts.length]? = some none) ∧
    (∀ sys : System, sys.network_names = [net.name] →
      (sys.configure_networking [(leaseRun net hosts.length).snd]).fst
        = some (capacityMsg net.name)) := by
  obtain ⟨sn, hpre, hshape⟩ := from_toml_internal_shape t net hok hint
  have hal : net.allocated_hosts = some [] := by rw [hshape]; rfl
  have hhosts : sn.hostsList = hosts := by
    have : net.available_hosts = some sn.hostsList := by rw [hshape]; rfl
    rw [this] at hav
    exact (Option.some.injEq ..).mp hav
  have hnd : hosts.Nodup := hhosts ▸ hostsList_nodup sn
  have hm0 : ∀ a, a ∈ ([] : List Nat) ↔ a ∈ hosts.take 0 := by simp
  refine ⟨?_, ?_, ?_, ?_⟩
  · intro i j a b hij hi hj
    obtain ⟨hik, ha⟩ := leaseRun_entry hosts hnd net hav hal k i (some a) hi
    obtain ⟨hjk, hb⟩ := leaseRun_entry hosts hnd net hav hal k j (some b) hj
    have hilen : i < hosts.length := by
      rw [← getElem?_isSome_iff, ← ha]; rfl
    have hjlen : j < hosts.length := by
      rw [← getElem?_isSome_iff, ← hb]; rfl
    rw [List.getElem?_eq_getElem hilen] at ha
    rw [List.getElem?_eq_getElem hjlen] at hb
    injection ha with ha2
    injection hb with hb2
    intro hab
    exact hij ((@List.Nodup.getElem_inj_iff ℕ hosts hnd i hilen j hjlen).mp
      (by rw [← ha2, ← hb2, hab]))
  · intro i r hi
    obtain ⟨hik, hr⟩ := leaseRun_entry hosts hnd net hav hal k i r hi
    rw [hr]
    exact getElem?_isSome_iff hosts i
  · intro hNk
    obtain ⟨hfst, -⟩ := leaseRun_spec hosts hnd k 0 net [] hav hal hm0
    rw [hfst, List.getElem?_map, List.getElem?_range hNk]
    rw [Option.map_some']
    rw [Nat.zero_add, List.getElem?_eq_none (Nat.le_refl _)]
  · intro sys hnames
    obtain ⟨-, allocN, hsndN, hmemN⟩ :=
      leaseRun_spec hosts hnd hosts.length 0 net [] hav hal hm0
    rw [hsndN]
    have hfindN : hosts.find? (fun a => !(decide (a ∈ allocN))) = none := by
      rw [find?_not_mem_take hosts hnd hosts.length allocN
        (by intro a; rw [hmemN a]; rw [Nat.zero_add])]
      exact List.getElem?_eq_none (Nat.le_refl _)
    have hg := get_address_lease_eq_find
      { net with allocated_hosts := some allocN } hosts allocN hav rfl
    rw [hfindN] at hg
    have hg1 : ({ net with allocated_hosts := some allocN } : Network).get_address_lease
        = (none, { net with allocated_hosts := some allocN }) := hg
    rw [hint] at hg1
    simp [System.configure_networking, hnames, resolveNetworks, List.find?_cons,
      wireLoop, leaseByName, hg1, hint]

/-- Decidable equality for `Except` results, used to evaluate the embedding
on concrete fixtures. -/
instance {e a : Type} [DecidableEq e] [DecidableEq a] : DecidableEq (Except e a) := fun x y =>
  match x, y with
  | Except.error e1, Except.error e2 =>
    if h : e1 = e2 then isTrue (congrArg Except.error h)
    else isFalse (by intro hc; injection hc with h2; exact h h2)
  | Except.error _, Except.ok _ => isFalse (fun hc => Except.noConfusion hc)
  | Except.ok _, Except.error _ => isFalse (fun hc => Except.noConfusion hc)
  | Except.ok a1, Except.ok a2 =>
    if h : a1 = a2 then isTrue (congrArg Except.ok h)
    else isFalse (by intro hc; injection hc with h2; exact h h2)

/-- The C1 test fixture: an Internal /30 network ("TestNet"), whose pool has
exactly two usable addresses. -/
def testNetToml : NetworkToml :=
  { name := some (TomlVal.str "TestNet")
    ntype := some (TomlVal.str "Internal")
    subnet := some (TomlVal.str "192.168.0.1/30") }

/-- The network `Network::from_toml` builds from `testNetToml`. -/
def net30 : Network := mkInternalNetwork "TestNet" ⟨ipv4 192 168 0 1, 30⟩

set_option maxRecDepth 40000 in
/-- C1 witness: on the two-address /30 pool, three successive lease calls
return two distinct addresses and then nothing, and wiring one more system
against the exhausted pool fails with the capacity error. -/
theorem lease_requests_distinct_and_capacity_bounded_witness :
    Network.from_toml testNetToml = Except.ok net30 ∧
    ((∀ (i j a b : Nat), i ≠ j → ((leaseRun net30 3).fst)[i]? = some (some a) →
        ((leaseRun net30 3).fst)[j]? = some (some b) → a ≠ b) ∧
      (∀ (i : Nat) (r : Option Nat), ((leaseRun net30 3).fst)[i]? = some r →
        (r.isSome ↔ i < [ipv4 192 168 0 1, ipv4 192 168 0 2].length)) ∧
      (([ipv4 192 168 0 1, ipv4 192 168 0 2] : List Nat).length < 3 →
        ((leaseRun net30 3).fst)[([ipv4 192 168 0 1, ipv4 192 168 0 2] : List Nat).length]?
          = some none) ∧
      (∀ sys : System, sys.network_names = [net30.name] →
        (sys.configure_networking
            [(leaseRun net30 ([ipv4 192 168 0 1, ipv4 192 168 0 2] : List Nat).length).snd]).fst
          = some (capacityMsg net30.name))) :=
  ⟨by decide,
    lease_requests_distinct_and_capacity_bounded testNetToml net30 (by decide) (by decide)
      [ipv4 192 168 0 1, ipv4 192 168 0 2] (by decide) 3⟩

/-- The C2 end-to-end fixture: the Internal network "LAN" on 192.168.0.1/24. -/
def lanToml : NetworkToml :=
  { name := some (TomlVal.str "LAN")
    ntype := some (TomlVal.str "Internal")
    subnet := some (TomlVal.str "192.168.0.1/24") }

/-- The network `Network::from_toml` builds from `lanToml`. -/
def lanNet : Network := mkInternalNetwork "LAN" ⟨ipv4 192 168 0 1, 24⟩

/-- The "Desktop" system of the end-to-end scenario, as built by
`System::from_toml`. -/
def desktopSys : System :=
  { name := "Desktop", networks := [], network_names := ["LAN"]
    base_box := "Windows 10", leased_network_addresses := [] }

/-- The "Server" system of the end-to-end scenario, as built by
`System::from_toml`. -/
def serverSys : System :=
  { name := "Server", networks := [], network_names := ["LAN"]
    base_box := "Debian", leased_network_addresses := [] }

set_option maxRecDepth 100000 in
/-- C2: `get_address_lease` on an Internal network built by
`Network::from_toml` returns the first usable host outside the current lease
set (scanning the ascending usable-host sequence, which is exactly the open
interval between the network and broadcast addresses), records the returned
address in the lease set before returning, and in the two-system "LAN"
scenario wired in declared order leases 192.168.0.1 to "Desktop" and then
192.168.0.2 to "Server". -/
theorem get_address_lease_scans_in_order
    (t : NetworkToml) (net : Network)
    (hok : Network.from_toml t = Except.ok net)
    (hint : net.network_type = NetworkType.Internal)
    (sn : Ipv4Net) (hsn : net.subnet = some sn)
    (hosts : List Nat) (hav : net.available_hosts = some hosts)
    (alloc : List Nat) :
    (({ net with allocated_hosts := some alloc } : Network).get_address_lease.fst
        = hosts.find? (fun a => !(decide (a ∈ alloc)))) ∧
    (∀ addr : Nat,
      ({ net with allocated_hosts := some alloc } : Network).get_address_lease.fst = some addr →
      ({ net with allocated_hosts := some alloc } : Network).get_address_lease.snd
        = { net with allocated_hosts := some (addr :: alloc) }) ∧
    (∀ a : Nat, a ∈ hosts ↔ (sn.networkAddr < a ∧ a < sn.broadcastAddr)) ∧
    List.Pairwise (fun a b => a < b) hosts ∧
    (Network.from_toml lanToml = Except.ok lanNet ∧
      (desktopSys.configure_networking [lanNet]).fst = none ∧
      ((desktopSys.configure_networking [lanNet]).snd.fst).leased_network_addresses
        = [("LAN", [ipv4 192 168 0 1])] ∧
      (serverSys.configure_networking
        (desktopSys.configure_networking [lanNet]).snd.snd).fst = none ∧
      ((serverSys.configure_networking
        (desktopSys.configure_networking [lanNet]).snd.snd).snd.fst).leased_network_addresses
        = [("LAN", [ipv4 192 168 0 2])]) := by
  obtain ⟨sn2, hpre, hshape⟩ := from_toml_internal_shape t net hok hint
  have hsn2 : sn2 = sn := by
    have : net.subnet = some sn2 := by rw [hshape]; rfl
    rw [this] at hsn
    exact (Option.some.injEq ..).mp hsn
  subst hsn2
  have hhosts : sn2.hostsList = hosts := by
    have : net.available_hosts = some sn2.hostsList := by rw [hshape]; rfl
    rw [this] at hav
    exact (Option.some.injEq ..).mp hav
  have hg := get_address_lease_eq_find
    { net with allocated_hosts := some alloc } hosts alloc hav rfl
  refine ⟨?_, ?_, ?_, ?_, ?_⟩
  · rw [hg]
    cases hf : hosts.find? (fun a => !(decide (a ∈ alloc))) <;> simp [hf]
  · intro addr h
    rw [hg] at h ⊢
    cases hf : hosts.find? (fun a => !(decide (a ∈ alloc))) with
    | none =>
      rw [hf] at h
      simp at h
    | some addr2 =>
      rw [hf] at h
      have haddr : addr2 = addr := by simpa using h
      subst haddr
      rfl
  · intro a
    have hh : hosts = List.range' (sn2.networkAddr + 1)
        (sn2.broadcastAddr - sn2.networkAddr - 1) := by
      rw [← hhosts]
      unfold Ipv4Net.hostsList
      rw [if_pos (by omega : sn2.prefixLen < 31)]
    have hs4 : 4 ≤ sn2.hostSpan := by
      have : (4 : Nat) = 2 ^ 2 := rfl
      rw [Ipv4Net.hostSpan, this]
      exact Nat.pow_le_pow_right (by omega) (by omega)
    have hb : sn2.broadcastAddr = sn2.networkAddr + (sn2.hostSpan - 1) := rfl
    rw [hh, List.mem_range']
    constructor
    · rintro ⟨i, hi, rfl⟩
      omega
    · intro hlt
      exact ⟨a - sn2.networkAddr - 1, by omega, by omega⟩
  · have hh : hosts = List.range' (sn2.networkAddr + 1)
        (sn2.broadcastAddr - sn2.networkAddr - 1) := by
      rw [← hhosts]
      unfold Ipv4Net.hostsList
      rw [if_pos (by omega : sn2.prefixLen < 31)]
    rw [hh]
    exact List.pairwise_lt_range' _ _ 1 (by decide)
  · decide

/-- Any net produced by the CIDR parser has a prefix length of at most 32. -/
theorem fromStr_prefixLen_le (s : String) (sn : Ipv4Net)
    (h : Ipv4Net.fromStr s = some sn) : sn.prefixLen ≤ 32 := by
  unfold Ipv4Net.fromStr at h
  split at h
  all_goals try exact Option.noConfusion h
  split at h
  all_goals try exact Option.noConfusion h
  split at h
  all_goals try exact Option.noConfusion h
  split at h
  all_goals try exact Option.noConfusion h
  split at h
  all_goals try exact Option.noConfusion h
  split at h
  all_goals try exact Option.noConfusion h
  injection h with h2
  rw [← h2]
  assumption

/-- How `Network::from_toml` evaluates on an Internal input whose subnet
string parses: the prefix-length gate first, then the RFC 1918 gate. -/
theorem from_toml_internal_eval (nm s : String) (t : NetworkToml)
    (hname : t.name = some (TomlVal.str nm))
    (htype : t.ntype = some (TomlVal.str "Internal"))
    (hsub : t.subnet = some (TomlVal.str s)) (sn : Ipv4Net)
    (hparse : Ipv4Net.fromStr s = some sn) :
    Network.from_toml t =
      if sn.prefixLen ≤ 30 then
        (if privateNets.any (fun p => decide (p.containsNet sn)) then
          Except.ok (mkInternalNetwork nm sn)
        else Except.error (rfcMsg nm))
      else Except.error (tooSmallMsg nm) := by
  rcases t with ⟨tn, tt, ts⟩
  simp only at hname htype hsub
  subst hname
  subst htype
  subst hsub
  simp [Network.from_toml, hparse]

/-- C3: for an Internal construction input whose subnet parses, a prefix
length from 0 through 30 passes the subnet-size check (the outcome is then
decided solely by the RFC 1918 gate), while any longer prefix — necessarily
31 or 32, the parser capping at 32 — is rejected with the descriptive
too-small error, so no Network is built from it. -/
theorem prefix_length_gate (t : NetworkToml) (nm s : String) (sn : Ipv4Net)
    (hname : t.name = some (TomlVal.str nm))
    (htype : t.ntype = some (TomlVal.str "Internal"))
    (hsub : t.subnet = some (TomlVal.str s))
    (hparse : Ipv4Net.fromStr s = some sn) :
    (sn.prefixLen ≤ 30 →
      Network.from_toml t =
        (if privateNets.any (fun p => decide (p.containsNet sn)) then
          Except.ok (mkInternalNetwork nm sn)
        else Except.error (rfcMsg nm))) ∧
    (¬ sn.prefixLen ≤ 30 →
      Network.from_toml t = Except.error (tooSmallMsg nm) ∧
      (sn.prefixLen = 31 ∨ sn.prefixLen = 32)) := by
  have he := from_toml_internal_eval nm s t hname htype hsub sn hparse
  constructor
  · intro h30
    rw [he, if_pos h30]
  · intro h30
    refine ⟨by rw [he, if_neg h30], ?_⟩
    have := fromStr_prefixLen_le s sn hparse
    omega

/-- The C3 negative fixture: a /31 subnet. -/
def net31Toml : NetworkToml :=
  { name := some (TomlVal.str "TestNet")
    ntype := some (TomlVal.str "Internal")
    subnet := some (TomlVal.str "192.168.0.1/31") }

set_option maxRecDepth 40000 in
/-- C3 witness: the /31 input is rejected with the too-small error, the /24
input passes the size gate and proceeds to the RFC 1918 gate. -/
theorem prefix_length_gate_witness :
    Ipv4Net.fromStr "192.168.0.1/31" = some ⟨ipv4 192 168 0 1, 31⟩ ∧
    Network.from_toml net31Toml = Except.error (tooSmallMsg "TestNet") ∧
    Network.from_toml lanToml =
      (if privateNets.any (fun p => decide (p.containsNet ⟨ipv4 192 168 0 1, 24⟩)) then
        Except.ok (mkInternalNetwork "LAN" ⟨ipv4 192 168 0 1, 24⟩)
      else Except.error (rfcMsg "LAN")) :=
  ⟨by decide,
    ((prefix_length_gate net31Toml "TestNet" "192.168.0.1/31" ⟨ipv4 192 168 0 1, 31⟩
      rfl rfl rfl (by decide)).2 (by decide)).1,
    (prefix_length_gate lanToml "LAN" "192.168.0.1/24" ⟨ipv4 192 168 0 1, 24⟩
      rfl rfl rfl (by decide)).1 (by decide)⟩

/-- C4: for an Internal construction input whose subnet parses and passes
the size gate, construction succeeds exactly when the subnet is fully
contained in one of the three RFC 1918 ranges, fails with the
RFC-compliance error otherwise, and the containment predicate is full
containment of the network-to-broadcast span (not mere overlap). -/
theorem rfc1918_full_containment (t : NetworkToml) (nm s : String) (sn : Ipv4Net)
    (hname : t.name = some (TomlVal.str nm))
    (htype : t.ntype = some (TomlVal.str "Internal"))
    (hsub : t.subnet = some (TomlVal.str s))
    (hparse : Ipv4Net.fromStr s = some sn)
    (h30 : sn.prefixLen ≤ 30) :
    (Network.from_toml t = Except.ok (mkInternalNetwork nm sn) ↔
      ∃ p ∈ privateNets, p.containsNet sn) ∧
    ((¬ ∃ p ∈ privateNets, p.containsNet sn) →
      Network.from_toml t = Except.error (rfcMsg nm)) ∧
    (∀ p : Ipv4Net, p.containsNet sn ↔
      (p.networkAddr ≤ sn.networkAddr ∧ sn.broadcastAddr ≤ p.broadcastAddr)) := by
  have he := (prefix_length_gate t nm s sn hname htype hsub hparse).1 h30
  refine ⟨?_, ?_, fun p => Iff.rfl⟩
  · rw [he]
    by_cases hp : privateNets.any (fun p => decide (p.containsNet sn)) = true
    · rw [if_pos hp]
      simp only [List.any_eq_true, decide_eq_true_eq] at hp
      exact ⟨fun _ => hp, fun _ => rfl⟩
    · rw [if_neg hp]
      simp only [List.any_eq_true, decide_eq_true_eq] at hp
      exact ⟨fun hc => absurd hc (fun hc2 => Except.noConfusion hc2),
        fun hx => absurd hx hp⟩
  · intro hnone
    rw [he, if_neg]
    intro hany
    apply hnone
    simpa using hany

/-- The C4 negative fixture: a /15 that starts inside 192.168.0.0/16 but
extends past its boundary. -/
def net15Toml : NetworkToml :=
  { name := some (TomlVal.str "TestNet")
    ntype := some (TomlVal.str "Internal")
    subnet := some (TomlVal.str "192.168.0.0/15") }

set_option maxRecDepth 100000 in
/-- C4 witness: the boundary-straddling /15 fails the RFC 1918 check while
the fully contained /24 is accepted. -/
theorem rfc1918_full_containment_witness :
    Ipv4Net.fromStr "192.168.0.0/15" = some ⟨ipv4 192 168 0 0, 15⟩ ∧
    Network.from_toml net15Toml = Except.error (rfcMsg "TestNet") ∧
    Network.from_toml lanToml = Except.ok (mkInternalNetwork "LAN" ⟨ipv4 192 168 0 1, 24⟩) :=
  ⟨by decide,
    (rfc1918_full_containment net15Toml "TestNet" "192.168.0.0/15" ⟨ipv4 192 168 0 0, 15⟩
      rfl rfl rfl (by decide) (by decide)).2.1 (by decide),
    (rfc1918_full_containment lanToml "LAN" "192.168.0.1/24" ⟨ipv4 192 168 0 1, 24⟩
      rfl rfl rfl (by decide) (by decide)).1.mpr (by decide)⟩

/-- C5: for a Public construction input, the mere presence of a subnet key
fails construction with the descriptive error, a subnet-free input succeeds,
and every successfully built Public network has no subnet, no usable-host
sequence and no lease set. -/
theorem public_subnet_rejected (t : NetworkToml) (nm : String)
    (hname : t.name = some (TomlVal.str nm))
    (htype : t.ntype = some (TomlVal.str "Public")) :
    (∀ v : TomlVal, t.subnet = some v →
      Network.from_toml t = Except.error (publicSubnetMsg nm)) ∧
    (t.subnet = none →
      Network.from_toml t = Except.ok
        { name := nm, network_type := NetworkType.Public, subnet := none,
          available_hosts := none, allocated_hosts := none }) ∧
    (∀ net : Network, Network.from_toml t = Except.ok net →
      net.subnet = none ∧ net.available_hosts = none ∧ net.allocated_hosts = none) := by
  rcases t with ⟨tn, tt, ts⟩
  simp only at hname htype
  subst hname
  subst htype
  have herr : ∀ v : TomlVal,
      Network.from_toml ⟨some (TomlVal.str nm), some (TomlVal.str "Public"), some v⟩
        = Except.error (publicSubnetMsg nm) := by
    intro v
    simp [Network.from_toml]
  have hok2 : Network.from_toml ⟨some (TomlVal.str nm), some (TomlVal.str "Public"), none⟩
      = Except.ok
        { name := nm, network_type := NetworkType.Public, subnet := none,
          available_hosts := none, allocated_hosts := none } := by
    simp [Network.from_toml]
  refine ⟨?_, ?_, ?_⟩
  · intro v hv
    simp only at hv
    subst hv
    exact herr v
  · intro hnone
    simp only at hnone
    subst hnone
    exact hok2
  · intro net hok
    cases ts with
    | none =>
      rw [hok2] at hok
      injection hok with h3
      rw [← h3]
      exact ⟨rfl, rfl, rfl⟩
    | some v =>
      rw [herr v] at hok
      exact Except.noConfusion hok

/-- The C5 fixtures: a Public network without and with a subnet key. -/
def pubToml : NetworkToml :=
  { name := some (TomlVal.str "TestNet")
    ntype := some (TomlVal.str "Public")
    subnet := none }

/-- A Public network input carrying a (string) subnet key. -/
def pubSubToml : NetworkToml :=
  { name := some (TomlVal.str "TestNet")
    ntype := some (TomlVal.str "Public")
    subnet := some (TomlVal.str "192.168.0.1/24") }

/-- C5 witness: the subnet key alone fails the Public network, and the
subnet-free Public network is built with empty option fields. -/
theorem public_subnet_rejected_witness :
    Network.from_toml pubSubToml = Except.error (publicSubnetMsg "TestNet") ∧
    Network.from_toml pubToml = Except.ok
      { name := "TestNet", network_type := NetworkType.Public, subnet := none,
        available_hosts := none, allocated_hosts := none } :=
  ⟨(public_subnet_rejected pubSubToml "TestNet" rfl rfl).1
      (TomlVal.str "192.168.0.1/24") rfl,
    (public_subnet_rejected pubToml "TestNet" rfl rfl).2.1 rfl⟩

/-- A lease call that returns nothing leaves the network untouched. -/
theorem get_address_lease_none_snd (net net2 : Network)
    (h : net.get_address_lease = (none, net2)) : net2 = net := by
  unfold Network.get_address_lease at h
  split at h
  · split at h
    · split at h
      · injection h with h1 h2
        exact Option.noConfusion h1
      · injection h with h1 h2
        exact h2.symm
    · injection h with h1 h2
      exact h2.symm
  · injection h with h1 h2
    exact h2.symm

/-- A successful lease call returns an address outside the lease set and
inserts exactly that address. -/
theorem get_address_lease_some_spec (net net2 : Network) (addr : Nat)
    (h : net.get_address_lease = (some addr, net2)) :
    ∃ alloc : List Nat, net.allocated_hosts = some alloc ∧ addr ∉ alloc ∧
      net2 = { net with allocated_hosts := some (addr :: alloc) } := by
  unfold Network.get_address_lease at h
  split at h
  · rename_i alloc halloc
    split at h
    · rename_i hostsl hav
      split at h
      · rename_i addr2 hhd
        injection h with h1 h2
        injection h1 with h1
        subst h1
        refine ⟨alloc, halloc, ?_, h2.symm⟩
        rw [head?_dropWhile_eq_find?_not] at hhd
        have hpt := List.find?_some hhd
        simp at hpt
        exact hpt
      · injection h with h1 h2
        exact Option.noConfusion h1
    · injection h with h1 h2
      exact Option.noConfusion h1
  · injection h with h1 h2
    exact Option.noConfusion h1

/-- A failed lease through the store leaves the store untouched. -/
theorem leaseByName_none (nm : String) : ∀ (store store2 : List Network),
    leaseByName store nm = (none, store2) → store2 = store := by
  intro store
  induction store with
  | nil =>
    intro store2 h
    injection h with h1 h2
    exact h2.symm
  | cons net rest ih =>
    intro store2 h
    unfold leaseByName at h
    by_cases hn : net.name = nm
    · rw [if_pos hn] at h
      injection h with h1 h2
      have hget : net.get_address_lease = (none, net.get_address_lease.snd) := by
        rw [← h1]
      have := get_address_lease_none_snd net _ hget
      rw [← h2, this]
    · rw [if_neg hn] at h
      injection h with h1 h2
      have htail : leaseByName rest nm = (none, (leaseByName rest nm).snd) := by
        rw [← h1]
      have := ih _ htail
      rw [← h2, this]

/-- What a successful lease through the store does to the lease sets: the
named network's set gains exactly the fresh address, every other name's set
is untouched. -/
theorem leaseByName_some_spec (nm : String) : ∀ (store store2 : List Network) (addr : Nat),
    leaseByName store nm = (some addr, store2) →
    addr ∉ allocSet store nm ∧
    allocSet store2 nm = addr :: allocSet store nm ∧
    (∀ on2 : String, on2 ≠ nm → allocSet store2 on2 = allocSet store on2) := by
  intro store
  induction store with
  | nil =>
    intro store2 addr h
    injection h with h1 h2
    exact Option.noConfusion h1
  | cons net rest ih =>
    intro store2 addr h
    unfold leaseByName at h
    by_cases hn : net.name = nm
    · rw [if_pos hn] at h
      injection h with h1 h2
      have hget : net.get_address_lease = (some addr, net.get_address_lease.snd) := by
        rw [← h1]
      obtain ⟨alloc, halloc, hnotmem, hsnd⟩ := get_address_lease_some_spec net _ addr hget
      have hname2 : net.get_address_lease.snd.name = nm := by rw [hsnd]; exact hn
      have halloc2 : net.get_address_lease.snd.allocated_hosts = some (addr :: alloc) := by
        rw [hsnd]
      refine ⟨?_, ?_, ?_⟩
      · rw [allocSet, if_pos hn, halloc]
        exact hnotmem
      · rw [← h2, allocSet, allocSet, if_pos hn, if_pos hname2, halloc2, halloc]
        rfl
      · intro on2 hon
        have hne2 : ¬ net.get_address_lease.snd.name = on2 := by
          rw [hname2]
          exact fun hc => hon hc.symm
        have hne1 : ¬ net.name = on2 := by
          rw [hn]
          exact fun hc => hon hc.symm
        rw [← h2, allocSet, allocSet, if_neg hne2, if_neg hne1]
    · rw [if_neg hn] at h
      injection h with h1 h2
      have htail : leaseByName rest nm = (some addr, (leaseByName rest nm).snd) := by
        rw [← h1]
      obtain ⟨hnot, hset, hother⟩ := ih _ addr htail
      refine ⟨?_, ?_, ?_⟩
      · rw [allocSet, if_neg hn]
        exact hnot
      · rw [← h2, allocSet, allocSet, if_neg hn, if_neg hn]
        exact hset
      · intro on2 hon
        by_cases hno : net.name = on2
        · rw [← h2, allocSet, allocSet, if_pos hno, if_pos hno]
        · rw [← h2, allocSet, allocSet, if_neg hno, if_neg hno]
          exact hother on2 hon

/-- The `HashMap` update appends the fresh address to the named entry and
leaves every other entry unchanged. -/
theorem lookup_updateLeases (nm : String) (addr : Nat) :
    ∀ m : List (String × List Nat),
      lookupLeases (updateLeases m nm addr) nm = lookupLeases m nm ++ [addr] ∧
      (∀ on2 : String, on2 ≠ nm →
        lookupLeases (updateLeases m nm addr) on2 = lookupLeases m on2) := by
  intro m
  induction m with
  | nil =>
    constructor
    · simp [updateLeases, lookupLeases]
    · intro on2 hon
      simp only [updateLeases, lookupLeases]
      rw [if_neg (fun hc => hon hc.symm)]
  | cons kv rest ih =>
    obtain ⟨k, v⟩ := kv
    by_cases hk : k = nm
    · constructor
      · rw [updateLeases, if_pos hk, lookupLeases, if_pos hk, lookupLeases, if_pos hk]
      · intro on2 hon
        have hko : ¬ k = on2 := fun hc => hon (hc ▸ hk ▸ rfl)
        rw [updateLeases, if_pos hk, lookupLeases, if_neg hko, lookupLeases, if_neg hko]
    · constructor
      · rw [updateLeases, if_neg hk, lookupLeases, if_neg hk, lookupLeases, if_neg hk]
        exact (ih).1
      · intro on2 hon
        by_cases hko : k = on2
        · rw [updateLeases, if_neg hk, lookupLeases, if_pos hko, lookupLeases, if_pos hko]
        · rw [updateLeases, if_neg hk, lookupLeases, if_neg hko, lookupLeases, if_neg hko]
          exact (ih).2 on2 hon

/-- Per-network bookkeeping of a successful wiring loop: the named entry of
the system's lease map grows by exactly the number of loop references to
that name, stays duplicate-free, and stays inside the network's lease set. -/
theorem wireLoop_ok_spec : ∀ (names : List String) (sys : System) (store : List Network),
    (wireLoop names sys store).fst = none →
    ∀ nn : String,
      (lookupLeases ((wireLoop names sys store).snd.fst.leased_network_addresses) nn).length
        = (lookupLeases sys.leased_network_addresses nn).length + names.count nn ∧
      ((∀ a ∈ lookupLeases sys.leased_network_addresses nn, a ∈ allocSet store nn) →
        (lookupLeases sys.leased_network_addresses nn).Nodup →
        ((lookupLeases ((wireLoop names sys store).snd.fst.leased_network_addresses) nn).Nodup ∧
          ∀ a ∈ lookupLeases ((wireLoop names sys store).snd.fst.leased_network_addresses) nn,
            a ∈ allocSet ((wireLoop names sys store).snd.snd) nn)) := by
  intro names
  induction names with
  | nil =>
    intro sys store h nn
    refine ⟨by simp [wireLoop], fun hsub hnd => ⟨hnd, hsub⟩⟩
  | cons nm rest ih =>
    intro sys store h nn
    rcases hlb : leaseByName store nm with ⟨r, store'⟩
    cases r with
    | none =>
      exfalso
      simp only [wireLoop, hlb] at h
      exact Option.noConfusion h
    | some addr =>
      have hw : wireLoop (nm :: rest) sys store
          = wireLoop rest
              { sys with leased_network_addresses :=
                  updateLeases sys.leased_network_addresses nm addr }
              store' := by
        simp only [wireLoop, hlb]
      rw [hw] at h ⊢
      obtain ⟨haddrnot, hset, hother⟩ := leaseByName_some_spec nm store store' addr hlb
      have ihh := ih _ store' h nn
      by_cases hnm : nm = nn
      · subst hnm
        obtain ⟨hupd, -⟩ := lookup_updateLeases nm addr sys.leased_network_addresses
        constructor
        · rw [ihh.1]
          show (lookupLeases (updateLeases sys.leased_network_addresses nm addr) nm).length
              + rest.count nm = _
          rw [hupd, List.length_append, List.count_cons]
          simp
          omega
        · intro hsub hnd
          apply ihh.2
          · intro a ha
            show a ∈ allocSet store' nm
            rw [hupd] at ha
            rw [hset]
            rcases List.mem_append.mp ha with hl | hr
            · exact List.mem_cons_of_mem _ (hsub a hl)
            · rw [List.mem_singleton.mp hr]
              exact List.mem_cons_self _ _
          · show (lookupLeases (updateLeases sys.leased_network_addresses nm addr) nm).Nodup
            rw [hupd, List.nodup_append]
            refine ⟨hnd, List.nodup_singleton _, ?_⟩
            intro a ha hb
            rw [List.mem_singleton.mp hb] at ha
            exact haddrnot (hsub addr ha)
      · obtain ⟨-, hupd2⟩ := lookup_updateLeases nm addr sys.leased_network_addresses
        have hne : nn ≠ nm := fun he => hnm he.symm
        have hl : lookupLeases (updateLeases sys.leased_network_addresses nm addr) nn
            = lookupLeases sys.leased_network_addresses nn := hupd2 nn hne
        constructor
        · rw [ihh.1]
          show (lookupLeases (updateLeases sys.leased_network_addresses nm addr) nn).length
              + rest.count nn = _
          rw [hl, List.count_cons]
          have hbeq : (nm == nn) = false := by
            simp [hnm]
          rw [hbeq]
          simp
        · intro hsub hnd
          apply ihh.2
          · intro a ha
            show a ∈ allocSet store' nn
            rw [hl] at ha
            rw [hother nn hne]
            exact hsub a ha
          · show (lookupLeases (updateLeases sys.leased_network_addresses nm addr) nn).Nodup
            rw [hl]
            exact hnd

/-- Resolution short-circuits at the first declared name with no matching
network, producing the error naming the system and that network. -/
theorem resolveNetworks_first_missing (sysName : String) (store : List Network) :
    ∀ (names : List String) (nm : String),
      names.find? (fun x => (store.find? (fun net => net.name == x)).isNone) = some nm →
      resolveNetworks sysName names store = Except.error (unresolvedMsg sysName nm) := by
  intro names
  induction names with
  | nil =>
    intro nm h
    exact Option.noConfusion h
  | cons x rest ih =>
    intro nm h
    rw [List.find?_cons] at h
    cases hfx : store.find? (fun net => net.name == x) with
    | none =>
      rw [hfx] at h
      have hx : x = nm := by
        have h2 : some x = some nm := h
        injection h2
      subst hx
      rw [resolveNetworks, hfx]
    | some net =>
      rw [hfx] at h
      have h2 : rest.find? (fun x => (store.find? (fun net => net.name == x)).isNone)
          = some nm := h
      rw [resolveNetworks, hfx, ih nm h2]

/-- Resolution success resolves each name to the first store entry with that
name; filtering the resolved references for Internal ones and reading their
names preserves the number of occurrences of any name whose network is
Internal. -/
theorem resolveNetworks_internal_count (sysName : String) (store : List Network)
    (nn : String) (net : Network)
    (hfind : store.find? (fun x => x.name == nn) = some net)
    (hintern : net.network_type = NetworkType.Internal) :
    ∀ (names : List String) (resolved : List Network),
      resolveNetworks sysName names store = Except.ok resolved →
      ((resolved.filter (fun x => x.network_type == NetworkType.Internal)).map
          (fun x => x.name)).count nn = names.count nn := by
  intro names
  induction names with
  | nil =>
    intro resolved h
    have h2 : resolved = [] := by
      have h3 : Except.ok ([] : List Network) = Except.ok resolved := h
      injection h3 with h4
      exact h4.symm
    subst h2
    simp
  | cons x rest ih =>
    intro resolved h
    rw [resolveNetworks] at h
    cases hfx : store.find? (fun net2 => net2.name == x) with
    | none =>
      rw [hfx] at h
      exact Except.noConfusion h
    | some netx =>
      rw [hfx] at h
      cases hres : resolveNetworks sysName rest store with
      | error e =>
        rw [hres] at h
        exact Except.noConfusion h
      | ok others =>
        rw [hres] at h
        have h2 : netx :: others = resolved := by
          have h3 : Except.ok (netx :: others) = Except.ok resolved := h
          injection h3
        subst h2
        have hxname : netx.name = x := by
          have hp := List.find?_some hfx
          simpa using hp
        by_cases hx : x = nn
        · subst hx
          have hnetx : net = netx := by
            rw [hfind] at hfx
            injection hfx with h5
          have hInt : (netx.network_type == NetworkType.Internal) = true := by
            rw [← hnetx, hintern]
            rfl
          rw [List.filter_cons, hInt]
          simp only [if_true, List.map_cons]
          rw [List.count_cons, List.count_cons, ih others hres]
          have hbeq : (netx.name == x) = true := by
            rw [hxname]
            exact beq_self_eq_true x
          rw [hxname]
        · cases hInt : (netx.network_type == NetworkType.Internal) with
          | true =>
            rw [List.filter_cons, hInt]
            simp only [if_true, List.map_cons]
            rw [List.count_cons, List.count_cons, ih others hres]
            have hb1 : (netx.name == nn) = false := by
              rw [hxname]
              exact beq_eq_false_iff_ne.mpr hx
            have hb2 : (x == nn) = false := beq_eq_false_iff_ne.mpr hx
            rw [hb1, hb2]
          | false =>
            rw [List.filter_cons, hInt]
            simp only [Bool.false_eq_true, if_false]
            rw [ih others hres, List.count_cons]
            have hb2 : (x == nn) = false := beq_eq_false_iff_ne.mpr hx
            rw [hb2]
            simp

/-- A lease call never changes the network's name. -/
theorem get_address_lease_snd_name (net : Network) :
    (net.get_address_lease).snd.name = net.name := by
  unfold Network.get_address_lease
  split
  · split
    · split
      · rfl
      · rfl
    · rfl
  · rfl

/-- A lease call never changes the network's usable-host sequence. -/
theorem get_address_lease_snd_avail (net : Network) :
    (net.get_address_lease).snd.available_hosts = net.available_hosts := by
  unfold Network.get_address_lease
  split
  · split
    · split
      · rfl
      · rfl
    · rfl
  · rfl

/-- Leasing through the store never changes any network's usable-host
sequence. -/
theorem leaseByName_availOf (nm nn : String) : ∀ store : List Network,
    availOf (leaseByName store nm).snd nn = availOf store nn := by
  intro store
  induction store with
  | nil => rfl
  | cons net rest ih =>
    by_cases hn : net.name = nm
    · have hstep : leaseByName (net :: rest) nm
          = (net.get_address_lease.fst, net.get_address_lease.snd :: rest) := by
        unfold leaseByName
        rw [if_pos hn]
      rw [hstep]
      show availOf (net.get_address_lease.snd :: rest) nn = availOf (net :: rest) nn
      simp only [availOf, get_address_lease_snd_name]
      by_cases hno : net.name = nn
      · rw [if_pos hno, if_pos hno, get_address_lease_snd_avail]
      · rw [if_neg hno, if_neg hno]
    · have hstep : leaseByName (net :: rest) nm
          = ((leaseByName rest nm).fst, net :: (leaseByName rest nm).snd) := by
        rw [leaseByName, if_neg hn]
      rw [hstep]
      show availOf (net :: (leaseByName rest nm).snd) nn = availOf (net :: rest) nn
      simp only [availOf]
      by_cases hno : net.name = nn
      · rw [if_pos hno, if_pos hno]
      · rw [if_neg hno, if_neg hno]
        exact ih

/-- Leasing on one name leaves every other name's lease-set field
untouched. -/
theorem leaseByName_allocOf_other (nm nn : String) (hne : nn ≠ nm) :
    ∀ store : List Network,
      allocOf (leaseByName store nm).snd nn = allocOf store nn := by
  intro store
  induction store with
  | nil => rfl
  | cons net rest ih =>
    by_cases hn : net.name = nm
    · have hstep : leaseByName (net :: rest) nm
          = (net.get_address_lease.fst, net.get_address_lease.snd :: rest) := by
        unfold leaseByName
        rw [if_pos hn]
      rw [hstep]
      show allocOf (net.get_address_lease.snd :: rest) nn = allocOf (net :: rest) nn
      have hno : ¬ net.name = nn := by
        rw [hn]
        exact fun hc => hne hc.symm
      simp only [allocOf, get_address_lease_snd_name]
      rw [if_neg hno, if_neg hno]
    · have hstep : leaseByName (net :: rest) nm
          = ((leaseByName rest nm).fst, net :: (leaseByName rest nm).snd) := by
        rw [leaseByName, if_neg hn]
      rw [hstep]
      show allocOf (net :: (leaseByName rest nm).snd) nn = allocOf (net :: rest) nn
      simp only [allocOf]
      by_cases hno : net.name = nn
      · rw [if_pos hno, if_pos hno]
      · rw [if_neg hno, if_neg hno]
        exact ih

/-- What a successful lease on a name returns, in terms of that name's
pool and lease set: the first host outside the set, which is then recorded
at the head of the set. -/
theorem leaseByName_some_track (nm : String) :
    ∀ (store store2 : List Network) (addr : Nat) (hostl alloc : List Nat),
      leaseByName store nm = (some addr, store2) →
      availOf store nm = some hostl →
      allocOf store nm = some alloc →
      hostl.find? (fun a => !(decide (a ∈ alloc))) = some addr ∧
      allocOf store2 nm = some (addr :: alloc) := by
  intro store
  induction store with
  | nil =>
    intro store2 addr hostl alloc h _ _
    injection h with h1 _
    exact Option.noConfusion h1
  | cons net rest ih =>
    intro store2 addr hostl alloc h hav hal
    unfold leaseByName at h
    by_cases hn : net.name = nm
    · rw [if_pos hn] at h
      injection h with h1 h2
      have hav2 : net.available_hosts = some hostl := by
        rw [← hav]
        simp only [availOf]
        rw [if_pos hn]
      have hal2 : net.allocated_hosts = some alloc := by
        rw [← hal]
        simp only [allocOf]
        rw [if_pos hn]
      have hg := get_address_lease_eq_find net hostl alloc hav2 hal2
      cases hf : hostl.find? (fun a => !(decide (a ∈ alloc))) with
      | none =>
        rw [hf] at hg
        have hg2 : net.get_address_lease = (none, net) := hg
        rw [hg2] at h1
        exact Option.noConfusion h1
      | some addr2 =>
        rw [hf] at hg
        have hg2 : net.get_address_lease
            = (some addr2, { net with allocated_hosts := some (addr2 :: alloc) }) := hg
        rw [hg2] at h1
        have haddr : addr2 = addr := by
          have h1b : some addr2 = some addr := h1
          injection h1b
        subst haddr
        refine ⟨rfl, ?_⟩
        rw [← h2, hg2]
        show allocOf ({ net with allocated_hosts := some (addr2 :: alloc) } :: rest) nm
            = some (addr2 :: alloc)
        simp only [allocOf]
        rw [if_pos (show ({ net with allocated_hosts := some (addr2 :: alloc) } : Network).name
          = nm from hn)]
    · rw [if_neg hn] at h
      injection h with h1 h2
      have htail : leaseByName rest nm = (some addr, (leaseByName rest nm).snd) := by
        rw [← h1]
      have hav2 : availOf rest nm = some hostl := by
        rw [← hav]
        simp only [availOf]
        rw [if_neg hn]
      have hal2 : allocOf rest nm = some alloc := by
        rw [← hal]
        simp only [allocOf]
        rw [if_neg hn]
      obtain ⟨hfind2, halloc2⟩ := ih _ addr hostl alloc htail hav2 hal2
      refine ⟨hfind2, ?_⟩
      rw [← h2]
      show allocOf (net :: (leaseByName rest nm).snd) nm = some (addr :: alloc)
      simp only [allocOf]
      rw [if_neg hn]
      exact halloc2

/-- The fields `find?` resolves a name to are the ones the dereferencing
accessors read. -/
theorem find?_availOf (nn : String) (net : Network) : ∀ store : List Network,
    store.find? (fun x => x.name == nn) = some net →
    availOf store nn = net.available_hosts ∧ allocOf store nn = net.allocated_hosts := by
  intro store
  induction store with
  | nil =>
    intro h
    exact Option.noConfusion h
  | cons x rest ih =>
    intro h
    rw [List.find?_cons] at h
    cases hbeq : (x.name == nn) with
    | true =>
      rw [hbeq] at h
      have h2 : some x = some net := h
      have h3 : x = net := by injection h2
      have heq : x.name = nn := eq_of_beq hbeq
      subst h3
      constructor
      · simp only [availOf]
        rw [if_pos heq]
      · simp only [allocOf]
        rw [if_pos heq]
    | false =>
      rw [hbeq] at h
      have h2 : rest.find? (fun x => x.name == nn) = some net := h
      have hne : ¬ x.name = nn := beq_eq_false_iff_ne.mp hbeq
      obtain ⟨ha, hb⟩ := ih h2
      constructor
      · simp only [availOf]
        rw [if_neg hne]
        exact ha
      · simp only [allocOf]
        rw [if_neg hne]
        exact hb

/-- Order of the addresses a successful wiring loop appends for one name:
starting from a lease set holding exactly the first `m` usable hosts, the
per-network list grows by exactly the next hosts of the pool, one per
reference, in pool order — so the `i`-th reference to the name contributes
the `i`-th appended element. -/
theorem wireLoop_ordered (nn : String) (hosts : List Nat) (hnd : hosts.Nodup) :
    ∀ (names : List String) (sys : System) (store : List Network) (m : Nat)
      (alloc : List Nat),
      (wireLoop names sys store).fst = none →
      availOf store nn = some hosts →
      allocOf store nn = some alloc →
      (∀ a, a ∈ alloc ↔ a ∈ hosts.take m) →
      lookupLeases ((wireLoop names sys store).snd.fst.leased_network_addresses) nn
        = lookupLeases sys.leased_network_addresses nn
          ++ (hosts.drop m).take (names.count nn) := by
  intro names
  induction names with
  | nil =>
    intro sys store m alloc h hav hal hpre
    simp [wireLoop]
  | cons nm rest ih =>
    intro sys store m alloc h hav hal hpre
    rcases hlb : leaseByName store nm with ⟨r, store2⟩
    cases r with
    | none =>
      exfalso
      simp only [wireLoop, hlb] at h
      exact Option.noConfusion h
    | some addr =>
      have hw : wireLoop (nm :: rest) sys store
          = wireLoop rest
              { sys with leased_network_addresses :=
                  updateLeases sys.leased_network_addresses nm addr } store2 := by
        simp only [wireLoop, hlb]
      rw [hw] at h ⊢
      have hsnd2 : store2 = (leaseByName store nm).snd := by rw [hlb]
      have hav2 : availOf store2 nn = some hosts := by
        rw [hsnd2, leaseByName_availOf nm nn store]
        exact hav
      by_cases hnm : nm = nn
      · subst hnm
        obtain ⟨hfind2, halloc2⟩ :=
          leaseByName_some_track nm store store2 addr hosts alloc hlb hav hal
        rw [find?_not_mem_take hosts hnd m alloc hpre] at hfind2
        have hlt : m < hosts.length := by
          by_contra hc
          rw [List.getElem?_eq_none (by omega)] at hfind2
          exact Option.noConfusion hfind2
        have haddr : hosts[m] = addr := by
          rw [List.getElem?_eq_getElem hlt] at hfind2
          injection hfind2
        have hpre2 : ∀ a, a ∈ addr :: alloc ↔ a ∈ hosts.take (m + 1) := by
          intro a
          rw [List.take_succ, List.getElem?_eq_getElem hlt, haddr]
          simp only [List.mem_cons, List.mem_append, Option.toList_some,
            List.mem_singleton, hpre a]
          tauto
        have ihh := ih _ store2 (m + 1) (addr :: alloc) h hav2 halloc2 hpre2
        rw [ihh]
        obtain ⟨hupd, -⟩ := lookup_updateLeases nm addr sys.leased_network_addresses
        show lookupLeases (updateLeases sys.leased_network_addresses nm addr) nm ++ _ = _
        rw [hupd, List.count_cons, beq_self_eq_true nm]
        simp only [if_true]
        rw [List.drop_eq_getElem_cons hlt, haddr, List.take_succ_cons,
          List.append_assoc, List.singleton_append]
      · have hne : nn ≠ nm := fun hc => hnm hc.symm
        have hal2 : allocOf store2 nn = some alloc := by
          rw [hsnd2, leaseByName_allocOf_other nm nn hne store]
          exact hal
        have ihh := ih _ store2 m alloc h hav2 hal2 hpre
        rw [ihh]
        obtain ⟨-, hupd2⟩ := lookup_updateLeases nm addr sys.leased_network_addresses
        show lookupLeases (updateLeases sys.leased_network_addresses nm addr) nn ++ _ = _
        rw [hupd2 nn hne, List.count_cons]
        have hbeq : (nm == nn) = false := beq_eq_false_iff_ne.mpr hnm
        rw [hbeq]
        simp

/-- C7: wiring a system whose declared name list contains an unresolvable
network name fails with the error naming the system and the first such name,
and leaves the system (resolved references and lease map) and the store
completely unchanged. -/
theorem unresolved_reference_fails (sys : System) (store : List Network) (nm : String)
    (hbad : sys.network_names.find?
        (fun x => (store.find? (fun net => net.name == x)).isNone) = some nm) :
    (sys.configure_networking store).fst = some (unresolvedMsg sys.name nm) ∧
    (sys.configure_networking store).snd.fst = sys ∧
    (sys.configure_networking store).snd.snd = store := by
  have hres := resolveNetworks_first_missing sys.name store sys.network_names nm hbad
  unfold System.configure_networking
  rw [hres]
  exact ⟨rfl, rfl, rfl⟩

/-- The C7 fixture: a system declaring the undefined network "OtherNet". -/
def otherNetSys : System :=
  { name := "Test System", networks := [], network_names := ["OtherNet"]
    base_box := "Debian", leased_network_addresses := [] }

set_option maxRecDepth 40000 in
/-- C7 witness: against a store holding only "LAN", wiring the system that
references "OtherNet" fails with the unresolved-reference error and leaves
system and store unchanged. -/
theorem unresolved_reference_fails_witness :
    (otherNetSys.network_names.find?
        (fun x => (([lanNet] : List Network).find? (fun net => net.name == x)).isNone)
      = some "OtherNet") ∧
    (otherNetSys.configure_networking [lanNet]).fst
      = some (unresolvedMsg "Test System" "OtherNet") ∧
    (otherNetSys.configure_networking [lanNet]).snd.fst = otherNetSys ∧
    (otherNetSys.configure_networking [lanNet]).snd.snd = [lanNet] := by
  have h := unresolved_reference_fails otherNetSys [lanNet] "OtherNet" (by decide)
  exact ⟨by decide, h.1, h.2.1, h.2.2⟩

/-- C8: when wiring a freshly built system succeeds, the per-network address
list it acquires for an Internal network it references holds exactly as many
addresses as the system declared references to that network, pairwise
distinct, appended one per reference in declared order by the wiring loop:
from any reachable lease state of the network (its set holding the first `m`
usable hosts), the list is exactly the next `k` usable hosts in pool order,
so the `i`-th declared reference yields the `i`-th element. -/
theorem k_references_yield_k_distinct_addresses (sys : System) (store : List Network)
    (nn : String) (net : Network) (k : Nat)
    (hfresh : sys.leased_network_addresses = [])
    (hfind : store.find? (fun x => x.name == nn) = some net)
    (hintern : net.network_type = NetworkType.Internal)
    (hcount : sys.network_names.count nn = k)
    (hok : (sys.configure_networking store).fst = none) :
    (lookupLeases ((sys.configure_networking store).snd.fst.leased_network_addresses) nn).length
      = k ∧
    (lookupLeases ((sys.configure_networking store).snd.fst.leased_network_addresses) nn).Nodup ∧
    (∀ (hosts alloc0 : List Nat) (m : Nat),
      net.available_hosts = some hosts → hosts.Nodup →
      net.allocated_hosts = some alloc0 →
      (∀ a, a ∈ alloc0 ↔ a ∈ hosts.take m) →
      lookupLeases ((sys.configure_networking store).snd.fst.leased_network_addresses) nn
        = (hosts.drop m).take k) := by
  cases hres : resolveNetworks sys.name sys.network_names store with
  | error e =>
    exfalso
    unfold System.configure_networking at hok
    rw [hres] at hok
    exact Option.noConfusion hok
  | ok resolved =>
    have hcfg : sys.configure_networking store
        = wireLoop
            ((resolved.filter (fun x => x.network_type == NetworkType.Internal)).map
              (fun x => x.name))
            { sys with networks := sys.networks ++ resolved.map (fun x => x.name) } store := by
      unfold System.configure_networking
      rw [hres]
    rw [hcfg] at hok ⊢
    have hcnt := resolveNetworks_internal_count sys.name store nn net hfind hintern
      sys.network_names resolved hres
    have hinv := wireLoop_ok_spec _ _ store hok nn
    have hlook : lookupLeases
        ({ sys with networks := sys.networks ++ resolved.map (fun x => x.name) } :
          System).leased_network_addresses nn = [] := by
      show lookupLeases sys.leased_network_addresses nn = []
      rw [hfresh]
      rfl
    refine ⟨?_, ?_, ?_⟩
    · rw [hinv.1]
      show (lookupLeases sys.leased_network_addresses nn).length + _ = _
      rw [hfresh]
      show 0 + _ = _
      rw [Nat.zero_add, hcnt, hcount]
    · have h2 := hinv.2
        (by rw [hlook]; intro a ha; cases ha)
        (by rw [hlook]; exact List.nodup_nil)
      exact h2.1
    · intro hosts alloc0 m hav hnd hal hpre
      obtain ⟨havO, halO⟩ := find?_availOf nn net store hfind
      have hord := wireLoop_ordered nn hosts hnd
        ((resolved.filter (fun x => x.network_type == NetworkType.Internal)).map
          (fun x => x.name))
        { sys with networks := sys.networks ++ resolved.map (fun x => x.name) } store m alloc0
        hok (by rw [havO]; exact hav) (by rw [halO]; exact hal) hpre
      rw [hord, hlook, List.nil_append, hcnt, hcount]

/-- The C8 fixture: one system with two NICs on "TestNet". -/
def twoNicSys : System :=
  { name := "Test system", networks := [], network_names := ["TestNet", "TestNet"]
    base_box := "Debian", leased_network_addresses := [] }

set_option maxRecDepth 40000 in
/-- C8 witness: the two-NIC system wired against the fresh /30 network
acquires exactly two distinct addresses on "TestNet", and in declared order:
the first NIC gets the pool's first usable host 192.168.0.1, the second NIC
the second, 192.168.0.2. -/
theorem k_references_yield_k_distinct_addresses_witness :
    (twoNicSys.configure_networking [net30]).fst = none ∧
    (lookupLeases
      ((twoNicSys.configure_networking [net30]).snd.fst.leased_network_addresses)
      "TestNet").length = 2 ∧
    (lookupLeases
      ((twoNicSys.configure_networking [net30]).snd.fst.leased_network_addresses)
      "TestNet").Nodup ∧
    lookupLeases
      ((twoNicSys.configure_networking [net30]).snd.fst.leased_network_addresses)
      "TestNet" = [ipv4 192 168 0 1, ipv4 192 168 0 2] := by
  have h := k_references_yield_k_distinct_addresses twoNicSys [net30] "TestNet" net30 2
    rfl (by decide) rfl (by decide) (by decide)
  refine ⟨by decide, h.1, h.2.1, ?_⟩
  have h3 := h.2.2 [ipv4 192 168 0 1, ipv4 192 168 0 2] [] 0
    (by decide) (by decide) rfl (by intro a; simp)
  exact h3

/-- C6 (the Scenario aggregate is modelled from the spec, its source being
absent): once the networks are built, the first duplicated network name makes
`Scenario::from_toml` fail with the error naming that network, whatever the
scenario's systems are — no system is ever examined. -/
theorem duplicate_network_name_fails (netsToml : List NetworkToml)
    (nets : List Network) (nm : String)
    (hnets : buildNetworks netsToml = Except.ok nets)
    (hdup : firstDuplicate (nets.map (fun net => net.name)) = some nm) :
    ∀ (systemsToml : List SystemToml) (sname : String),
      Scenario.from_toml { name := sname, systems := systemsToml, networks := netsToml }
        = Except.error (duplicateNetworkMsg nm) := by
  intro systemsToml sname
  show Scenario.from_toml _ = _
  unfold Scenario.from_toml
  rw [hnets]
  simp only [hdup]

/-- The second "LAN" entry of the duplicate-name fixture. -/
def lanTomlB : NetworkToml :=
  { name := some (TomlVal.str "LAN")
    ntype := some (TomlVal.str "Internal")
    subnet := some (TomlVal.str "192.168.1.1/24") }

/-- The network built from `lanTomlB`. -/
def lanNetB : Network := mkInternalNetwork "LAN" ⟨ipv4 192 168 1 1, 24⟩

/-- A malformed system table (no fields at all): building it would fail, so
the duplicate-name error arriving first shows no system is processed. -/
def badSysToml : SystemToml :=
  { name := none, networks := none, base_box := none }

set_option maxRecDepth 100000 in
/-- C6 witness: two networks both named "LAN" build fine individually, the
scenario then fails naming "LAN" — even though the systems list holds an
unbuildable system, which is therefore never processed. -/
theorem duplicate_network_name_fails_witness :
    buildNetworks [lanToml, lanTomlB] = Except.ok [lanNet, lanNetB] ∧
    firstDuplicate ([lanNet, lanNetB].map (fun net => net.name)) = some "LAN" ∧
    Scenario.from_toml
        { name := "Test scenario", systems := [badSysToml],
          networks := [lanToml, lanTomlB] }
      = Except.error (duplicateNetworkMsg "LAN") :=
  ⟨by decide, by decide,
    duplicate_network_name_fails [lanToml, lanTomlB] [lanNet, lanNetB] "LAN"
      (by decide) (by decide) [badSysToml] "Test scenario"⟩

/-- The C9 fixture: one system with three NICs on the two-address "TestNet". -/
def threeNicSys : System :=
  { name := "Test system", networks := [], network_names := ["TestNet", "TestNet", "TestNet"]
    base_box := "Debian", leased_network_addresses := [] }

set_option maxRecDepth 40000 in
/-- C9 counterexample: wiring the three-NIC system against the two-address
/30 pool fails with the capacity error, yet the failing system's lease map
still holds the two addresses committed before the failure, and the
network's lease set still records them — the failed call does not leave the
lease state clean. -/
theorem wiring_failure_keeps_partial_leases :
    (threeNicSys.configure_networking [net30]).fst = some (capacityMsg "TestNet") ∧
    ((threeNicSys.configure_networking [net30]).snd.fst).leased_network_addresses
      = [("TestNet", [ipv4 192 168 0 1, ipv4 192 168 0 2])] ∧
    allocSet ((threeNicSys.configure_networking [net30]).snd.snd) "TestNet"
      = [ipv4 192 168 0 2, ipv4 192 168 0 1] := by
  refine ⟨by decide, by decide, by decide⟩

/-- C9 (amended): a failing lease aborts the wiring loop immediately — the
error of the first failing reference propagates, no later reference is
attempted, and the store comes back exactly as the successful prefix left it
(the failing lease itself mutates nothing); the leases committed before the
failure remain recorded in the system and the store. -/
theorem wiring_aborts_immediately_on_failure (names1 names2 : List String) (nm : String)
    (sys sys1 : System) (store store1 store2 : List Network)
    (h1 : wireLoop names1 sys store = (none, sys1, store1))
    (h2 : leaseByName store1 nm = (none, store2)) :
    wireLoop (names1 ++ nm :: names2) sys store = (some (capacityMsg nm), sys1, store2) ∧
    store2 = store1 := by
  refine ⟨?_, leaseByName_none nm store1 store2 h2⟩
  induction names1 generalizing sys store with
  | nil =>
    have hs : sys1 = sys ∧ store1 = store := by
      have h3 : ((none : Option String), sys, store) = (none, sys1, store1) := h1
      injection h3 with h4 h5
      injection h5 with h6 h7
      exact ⟨h6.symm, h7.symm⟩
    obtain ⟨hs1, hs2⟩ := hs
    subst hs1
    subst hs2
    rw [List.nil_append]
    simp only [wireLoop, h2]
  | cons n ns ih =>
    rw [List.cons_append]
    rcases hlb : leaseByName store n with ⟨r, store'⟩
    cases r with
    | none =>
      exfalso
      simp only [wireLoop, hlb] at h1
      have h3 := congrArg Prod.fst h1
      exact Option.noConfusion h3
    | some addr =>
      have hw : wireLoop (n :: ns) sys store
          = wireLoop ns
              { sys with leased_network_addresses :=
                  updateLeases sys.leased_network_addresses n addr }
              store' := by
        simp only [wireLoop, hlb]
      rw [hw] at h1
      have hw2 : wireLoop (n :: (ns ++ nm :: names2)) sys store
          = wireLoop (ns ++ nm :: names2)
              { sys with leased_network_addresses :=
                  updateLeases sys.leased_network_addresses n addr }
              store' := by
        simp only [wireLoop, hlb]
      rw [hw2]
      exact ih _ _ h1

set_option maxRecDepth 40000 in
/-- C9 witness for the amended claim: two successful leases on the /30 pool,
then the third reference fails immediately with the capacity error, keeping
the two committed leases. -/
theorem wiring_aborts_immediately_on_failure_witness :
    (wireLoop ["TestNet", "TestNet"] threeNicSys [net30]).fst = none ∧
    (wireLoop (["TestNet", "TestNet"] ++ "TestNet" :: []) threeNicSys [net30]).fst
      = some (capacityMsg "TestNet") := by
  rcases hw : wireLoop ["TestNet", "TestNet"] threeNicSys [net30] with ⟨e, sys1, store1⟩
  have he : e = none := by
    have h3 := congrArg (fun p => p.fst) hw
    simp at h3
    rw [← h3]
    decide
  subst he
  rcases hlb : leaseByName store1 "TestNet" with ⟨r, store2⟩
  have hr : r = none := by
    have hst : store1 = (wireLoop ["TestNet", "TestNet"] threeNicSys [net30]).snd.snd := by
      rw [hw]
    rw [hst] at hlb
    have h4 := congrArg (fun p => p.fst) hlb
    simp at h4
    rw [← h4]
    decide
  subst hr
  have h := wiring_aborts_immediately_on_failure ["TestNet", "TestNet"] [] "TestNet"
    threeNicSys sys1 [net30] store1 store2 hw hlb
  exact ⟨rfl, by rw [h.1]⟩


set_option maxRecDepth 100000 in
/-- C2 witness: on the freshly built "LAN" network the first lease call
returns the first unclaimed usable host, and the wired "Desktop" system
holds 192.168.0.1 on "LAN". -/
theorem get_address_lease_scans_in_order_witness :
    Network.from_toml lanToml = Except.ok lanNet ∧
    (({ lanNet with allocated_hosts := some ([] : List Nat) } : Network).get_address_lease.fst
      = (Ipv4Net.hostsList ⟨ipv4 192 168 0 1, 24⟩).find?
          (fun a => !(decide (a ∈ ([] : List Nat))))) ∧
    (desktopSys.configure_networking [lanNet]).snd.fst.leased_network_addresses
      = [("LAN", [ipv4 192 168 0 1])] := by
  have h := get_address_lease_scans_in_order lanToml lanNet (by decide) rfl
    ⟨ipv4 192 168 0 1, 24⟩ rfl (Ipv4Net.hostsList ⟨ipv4 192 168 0 1, 24⟩) rfl []
  exact ⟨by decide, h.1, (h.2.2.2.2).2.2.1⟩
